import Mathlib

/-!
Verification of the Spindle front-end argument resolver
(`src/fe/launchmon/parseargs.cc`).

The development shallowly embeds the resolver: the static option table, the
argp callback `parse` (scan phase and the `ARGP_KEY_END` finalize phase),
the `parseArgs` driver with its post-finalize debug override, and the
auxiliary resolvers (`atoi`-based port parsing and the python-prefix
merge of `parse_python_prefix` / `getPythonPrefixes`).

C `unsigned long` / `unsigned int` values are embedded as `Nat` with the
wrap-around made explicit (`% 2 ^ 64`, `% 2 ^ 32`) where the C code can
exercise it; `~x` on `unsigned long` is embedded as `complUL`.
-/

set_option maxHeartbeats 1000000

namespace Spindle

/-
Feature-bit constants.  Modelled from the spec: the `OPT_*` macros come from
`spindle_launch.h`, which is not among the given sources.  The spec requires
one independent bit per feature in a dense bitmask, and a reserved sub-range
of bits (here bits 16 and up) holding the one-of-N security-model value, so
we fix a concrete layout of pairwise distinct bits below bit 16.
-/

def OPT_COBO : Nat := 2 ^ 1

def OPT_DEBUG : Nat := 2 ^ 2

def OPT_FOLLOWFORK : Nat := 2 ^ 3

def OPT_PRELOAD : Nat := 2 ^ 4

def OPT_PUSH : Nat := 2 ^ 5

def OPT_PULL : Nat := 2 ^ 6

def OPT_RELOCAOUT : Nat := 2 ^ 7

def OPT_RELOCSO : Nat := 2 ^ 8

def OPT_RELOCEXEC : Nat := 2 ^ 9

def OPT_RELOCPY : Nat := 2 ^ 10

def OPT_STRIP : Nat := 2 ^ 11

def OPT_NOCLEAN : Nat := 2 ^ 12

def OPT_NOHIDE : Nat := 2 ^ 13

def OPT_REMAPEXEC : Nat := 2 ^ 14

def OPT_NOMPI : Nat := 2 ^ 15

/-
Security-model identifiers, modelled from the spec: distinct small codes for
the one-of-N candidate set (munge, launchmon key exchange, keyfile, none).
-/

def OPT_SEC_MUNGE : Nat := 0

def OPT_SEC_KEYLMON : Nat := 1

def OPT_SEC_KEYFILE : Nat := 2

def OPT_SEC_NULL : Nat := 3

/-- The `unsigned long` value `sec << 16` that the security-model encoding
ORs into the bitmask. -/
def secTerm (x : Int) : Nat :=
  (x.toNat <<< 16) % 2 ^ 64

/-- Modelled from the spec: `OPT_SET_SEC(opts, sec)` encodes the chosen
security model into the reserved bit range at bit 16 of the `unsigned long`
bitmask.  The C call site only ever passes a non-negative `sec_model`. -/
def OPT_SET_SEC (o : Nat) (x : Int) : Nat :=
  o ||| secTerm x

/- Option key codes: the character macros of parseargs.cc. -/

def RELOCAOUT : Nat := 97

def COBO : Nat := 99

def DEBUG : Nat := 100

def PRELOAD : Nat := 101

def FOLLOWFORK : Nat := 102

def HIDE : Nat := 104

def RELOCSO : Nat := 108

def NOMPI : Nat := 109

def NOCLEAN : Nat := 110

def LOCATION : Nat := 111

def PUSH : Nat := 112

def PULL : Nat := 113

def PYTHONPREFIX_KEY : Nat := 114

def STRIP : Nat := 115

def PORT : Nat := 116

def RELOCEXEC : Nat := 120

def RELOCPY : Nat := 121

def DISABLE_LOGGING : Nat := 122

def SECMUNGE : Nat := 256 + OPT_SEC_MUNGE

def SECKEYLMON : Nat := 256 + OPT_SEC_KEYLMON

def SECKEYFILE : Nat := 256 + OPT_SEC_KEYFILE

def SECNULL : Nat := 256 + OPT_SEC_NULL

/- Option group ids. -/

def GROUP_RELOC : Nat := 1

def GROUP_PUSHPULL : Nat := 2

def GROUP_NETWORK : Nat := 3

def GROUP_SEC : Nat := 4

def GROUP_MISC : Nat := 5

/-- The compile-time configuration of one build: which security models are
compiled in (`MUNGE`, `SECLMON`, `KEYFILE`, `ENABLE_NULL_ENCRYPTION`),
whether usage logging is compiled in (`USAGE_LOGGING_FILE`), and the
compiled default constants `PYTHON_INST_PREFIX`, `SPINDLE_PORT`,
`SPINDLE_LOC` from config.h. -/
structure BuildConfig where
  munge : Bool
  seclmon : Bool
  keyfile : Bool
  enable_null_encryption : Bool
  usage_logging_file : Bool
  python_inst_prefix_list : String
  SPINDLE_PORT : Nat
  SPINDLE_LOC : String
deriving DecidableEq

/-- A build compiles only if at least one security model is available
(the `#error No security model available` preprocessor branch). -/
def validBuild (b : BuildConfig) : Prop :=
  b.munge = true ∨ b.seclmon = true ∨ b.keyfile = true ∨
    b.enable_null_encryption = true

/-- The `DEFAULT_SEC` preprocessor chain of parseargs.cc:
`MUNGE` yields `OPT_SEC_MUNGE`; otherwise `SECLMON` yields
`OPT_SEC_KEYFILE`; otherwise `KEYFILE` yields `OPT_SEC_KEYFILE`; otherwise
`ENABLE_NULL_ENCRYPTION` yields `OPT_SEC_NULL` (a build with no model does
not compile). -/
def default_sec (b : BuildConfig) : Nat :=
  if b.munge then OPT_SEC_MUNGE
  else if b.seclmon then OPT_SEC_KEYFILE
  else if b.keyfile then OPT_SEC_KEYFILE
  else OPT_SEC_NULL

/-- The first security-model candidate that is compiled into the build, in
the order the candidates appear in the option registry
(munge, launchmon, keyfile, none). -/
def firstCompiledSec (b : BuildConfig) : Nat :=
  if b.munge then OPT_SEC_MUNGE
  else if b.seclmon then OPT_SEC_KEYLMON
  else if b.keyfile then OPT_SEC_KEYFILE
  else OPT_SEC_NULL

/- The static group masks of parseargs.cc. -/

def all_reloc_opts : Nat :=
  OPT_RELOCAOUT ||| OPT_RELOCSO ||| OPT_RELOCEXEC ||| OPT_RELOCPY |||
    OPT_FOLLOWFORK

def all_network_opts : Nat := OPT_COBO

def all_pushpull_opts : Nat := OPT_PUSH ||| OPT_PULL

def all_misc_opts : Nat :=
  OPT_STRIP ||| OPT_DEBUG ||| OPT_PRELOAD ||| OPT_NOCLEAN

def default_reloc_opts : Nat :=
  OPT_RELOCAOUT ||| OPT_RELOCSO ||| OPT_RELOCEXEC ||| OPT_RELOCPY |||
    OPT_FOLLOWFORK

def default_network_opts : Nat := OPT_COBO

def default_pushpull_opts : Nat := OPT_PUSH

def default_misc_opts : Nat := OPT_STRIP

/-- The shared `YESNO` literal; entries registered with it take a
`yes|y|no|n` argument (C compares the `arg` field against this very
pointer, and only the yes/no entries are initialized with it). -/
def YESNO : String := "yes|no"

/-- One row of the static `argp_option` table.  The C struct also carries
`flags` and a doc string; neither affects the parse callback (the
`OPTION_HIDDEN` flag of `disable-logging` only hides it from `--help`),
so they are not embedded. -/
structure ArgpEntry where
  name : String
  key : Nat
  argDoc : Option String
  group : Nat
deriving DecidableEq

/-- The all-zero terminator row ending the C table. -/
def terminator : ArgpEntry := ⟨"", 0, none, 0⟩

/-- The static option table.  The four `security-*` rows are present only
when the corresponding model is compiled in. -/
def options (b : BuildConfig) : List ArgpEntry :=
  [⟨"reloc-aout", RELOCAOUT, some YESNO, GROUP_RELOC⟩,
   ⟨"reloc-libs", RELOCSO, some YESNO, GROUP_RELOC⟩,
   ⟨"reloc-python", RELOCPY, some YESNO, GROUP_RELOC⟩,
   ⟨"reloc-exec", RELOCEXEC, some YESNO, GROUP_RELOC⟩,
   ⟨"follow-fork", FOLLOWFORK, some YESNO, GROUP_RELOC⟩,
   ⟨"push", PUSH, none, GROUP_PUSHPULL⟩,
   ⟨"pull", PULL, none, GROUP_PUSHPULL⟩,
   ⟨"cobo", COBO, none, GROUP_NETWORK⟩,
   ⟨"port", PORT, some "number", GROUP_NETWORK⟩,
   ⟨"location", LOCATION, some "directory", GROUP_NETWORK⟩] ++
  (if b.munge then [⟨"security-munge", SECMUNGE, none, GROUP_SEC⟩] else []) ++
  (if b.seclmon then [⟨"security-lmon", SECKEYLMON, none, GROUP_SEC⟩] else []) ++
  (if b.keyfile then [⟨"security-keyfile", SECKEYFILE, none, GROUP_SEC⟩] else []) ++
  (if b.enable_null_encryption then [⟨"security-none", SECNULL, none, GROUP_SEC⟩] else []) ++
  [⟨"python-prefix", PYTHONPREFIX_KEY, some "=path", GROUP_MISC⟩,
   ⟨"debug", DEBUG, some YESNO, GROUP_MISC⟩,
   ⟨"preload", PRELOAD, some "FILE", GROUP_MISC⟩,
   ⟨"strip", STRIP, some YESNO, GROUP_MISC⟩,
   ⟨"noclean", NOCLEAN, some YESNO, GROUP_MISC⟩,
   ⟨"disable-logging", DISABLE_LOGGING, none, GROUP_MISC⟩,
   ⟨"no-mpi", NOMPI, none, 0⟩,
   ⟨"no-hide", HIDE, none, GROUP_MISC⟩]

/-- The entry-lookup loop at the top of `parse`: the first table row whose
key matches, or the terminator row. -/
def lookupEntry (b : BuildConfig) (key : Nat) : ArgpEntry :=
  ((options b).find? (fun e => e.key == key)).getD terminator

/-- The `opt_key_to_code` switch. -/
def opt_key_to_code (key : Nat) : Nat :=
  if key = RELOCAOUT then OPT_RELOCAOUT
  else if key = COBO then OPT_COBO
  else if key = DEBUG then OPT_DEBUG
  else if key = PRELOAD then OPT_PRELOAD
  else if key = FOLLOWFORK then OPT_FOLLOWFORK
  else if key = RELOCSO then OPT_RELOCSO
  else if key = PUSH then OPT_PUSH
  else if key = PULL then OPT_PULL
  else if key = STRIP then OPT_STRIP
  else if key = RELOCEXEC then OPT_RELOCEXEC
  else if key = RELOCPY then OPT_RELOCPY
  else if key = NOCLEAN then OPT_NOCLEAN
  else 0

/-- The helper `multi_bits_set`: true when at least two bits are set. -/
def multi_bits_set (v : Nat) : Bool :=
  v &&& (v - 1) != 0

/-- The one's complement `~y` on a C `unsigned long`: xor with the all-ones
64-bit word (operands are first reduced to their 64-bit value, which for
every value the program actually builds is the identity). -/
def complUL (y : Nat) : Nat :=
  (2 ^ 64 - 1) ^^^ (y % 2 ^ 64)

/-- Digit-consuming loop of C `atoi`: accumulates leading decimal digits
and stops at the first non-digit. -/
def atoiNatLoop : List Char → Nat → Nat
  | [], acc => acc
  | c :: cs, acc =>
      if c.isDigit then atoiNatLoop cs (acc * 10 + (c.toNat - 48)) else acc

/-- The whitespace class skipped by C `atoi`. -/
def isAsciiSpace (c : Char) : Bool :=
  c = ' ' || c = '\t' || c = '\n' || c = '\x0b' || c = '\x0c' || c = '\r'

/-- C `atoi`: skip whitespace, optional sign, leading digits; 0 when no
digits are found.  (Values overflowing `int` are undefined behavior in C
and are returned unreduced here.) -/
def atoi (s : String) : Int :=
  match s.toList.dropWhile isAsciiSpace with
  | '-' :: rest => -(atoiNatLoop rest 0 : Int)
  | '+' :: rest => (atoiNatLoop rest 0 : Int)
  | cs => (atoiNatLoop cs 0 : Int)

/-- Conversion of a C `int` to `unsigned int` (the assignment
`spindle_port = atoi(arg)`): reduction modulo `2 ^ 32`. -/
def uintOfInt (x : Int) : Nat :=
  (x % (2 ^ 32 : Int)).toNat

/-- The mutable state of one resolution: the file-static accumulator
variables of parseargs.cc. -/
structure PState where
  enabled_opts : Nat
  disabled_opts : Nat
  preload_file : Option String
  mpi_argv : List String
  mpi_argc : Nat
  done : Bool
  use_mpi : Bool
  hide_fd : Bool
  sec_model : Int
  user_python_prefixes : Option String
  logging_enabled : Bool
  spindle_port : Nat
  spindle_location : String
  opts : Nat
deriving DecidableEq

/-- The initial values of the static variables (plus the `done = false`
reset performed by `parseArgs`). -/
def initState (b : BuildConfig) : PState where
  enabled_opts := 0
  disabled_opts := 0
  preload_file := none
  mpi_argv := []
  mpi_argc := 0
  done := false
  use_mpi := true
  hide_fd := true
  sec_model := -1
  user_python_prefixes := none
  logging_enabled := b.usage_logging_file
  spindle_port := b.SPINDLE_PORT
  spindle_location := b.SPINDLE_LOC
  opts := 0

/-- The fatal `argp_error` calls of the parse callback.  Each aborts the
process, so a run producing one returns no configuration. -/
inductive ParseErr where
  | mustBeYesNo (name : String)
  | portZero
  | conflictingEnableDisable
  | multipleNetworkOptions
  | pushAndPull
  | noMpiCommand
deriving DecidableEq

/-- The events argp delivers to the parse callback that are observable at
this level: a recognized option key with its argument string (`""` for
flag-only options, whose `arg` is never read), the trailing-command capture
`ARGP_KEY_ARGS`, the finalize call `ARGP_KEY_END`, and `ARGP_KEY_NO_ARGS`.
The `ARGP_KEY_ARG` branch (which merely returns `ARGP_ERR_UNKNOWN` so that
argp re-delivers the trailing tokens as `ARGP_KEY_ARGS`) and the final
`return 0` for argp bookkeeping keys have no observable effect. -/
inductive Event where
  | opt (key : Nat) (arg : String)
  | keyArgs (args : List String)
  | keyEnd
  | keyNoArgs
deriving DecidableEq

/-- The `ARGP_KEY_END` branch of `parse`: the finalize phase.  The C code
interleaves the `opts |=` assignments with the error checks; since
`argp_error` aborts, the sequencing below is observationally identical. -/
def finalizeEnd (b : BuildConfig) (st : PState) : Except ParseErr PState :=
  if st.enabled_opts &&& st.disabled_opts ≠ 0 then
    .error .conflictingEnableDisable
  else
    let enabled_network_opts := st.enabled_opts &&& all_network_opts
    if multi_bits_set enabled_network_opts then
      .error .multipleNetworkOptions
    else
      let opts1 := st.opts |||
        (if enabled_network_opts ≠ 0 then enabled_network_opts
         else default_network_opts)
      let enabled_pushpull_opts := st.enabled_opts &&& all_pushpull_opts
      if multi_bits_set enabled_pushpull_opts then
        .error .pushAndPull
      else
        let opts2 := opts1 |||
          (if enabled_pushpull_opts ≠ 0 then enabled_pushpull_opts
           else default_pushpull_opts)
        let opts3 := opts2 |||
          (all_reloc_opts &&& complUL st.disabled_opts &&&
            (st.enabled_opts ||| default_reloc_opts))
        let sm : Int :=
          if st.sec_model = -1 then (default_sec b : Int) else st.sec_model
        let opts4 := OPT_SET_SEC opts3 sm
        let opts5 := opts4 |||
          (all_misc_opts &&& complUL st.disabled_opts &&&
            (st.enabled_opts ||| default_misc_opts))
        .ok { st with opts := opts5, sec_model := sm }

/-- The argp parse callback.  Branch order follows the C if/else chain.
On the `PORT` branch the C code stores the parsed value before the zero
check; since the error aborts the process, erroring without the store is
observationally identical. -/
def parse (b : BuildConfig) (ev : Event) (st : PState) :
    Except ParseErr PState :=
  if st.done = true ∧ ev ≠ Event.keyEnd then .ok st
  else
    match ev with
    | .opt key arg =>
      let entry := lookupEntry b key
      let opt := opt_key_to_code key
      if entry.argDoc = some YESNO then
        if arg = "yes" ∨ arg = "y" then
          .ok { st with enabled_opts := st.enabled_opts ||| opt }
        else if arg = "no" ∨ arg = "n" then
          .ok { st with disabled_opts := st.disabled_opts ||| opt }
        else
          .error (.mustBeYesNo entry.name)
      else if entry.key ≠ 0 ∧ entry.argDoc = none ∧ opt ≠ 0 then
        .ok { st with enabled_opts := st.enabled_opts ||| opt }
      else if entry.key = PRELOAD then
        .ok { st with enabled_opts := st.enabled_opts ||| opt,
                      preload_file := some arg }
      else if entry.key = PORT then
        let p := uintOfInt (atoi arg)
        if p = 0 then .error .portZero
        else .ok { st with spindle_port := p }
      else if entry.key = LOCATION then
        .ok { st with spindle_location := arg }
      else if key = DISABLE_LOGGING then
        .ok { st with logging_enabled := false }
      else if key = NOMPI then
        .ok { st with use_mpi := false, opts := st.opts ||| OPT_NOMPI }
      else if key = HIDE then
        .ok { st with hide_fd := false, opts := st.opts ||| OPT_NOHIDE }
      else if entry.group = GROUP_SEC then
        .ok { st with sec_model := (key : Int) - 256 }
      else if key = PYTHONPREFIX_KEY then
        .ok { st with user_python_prefixes := some arg }
      else .ok st
    | .keyArgs args =>
      .ok { st with mpi_argv := args, mpi_argc := args.length, done := true }
    | .keyEnd => finalizeEnd b st
    | .keyNoArgs => .error .noMpiCommand

/-- Folding the parse callback over a sequence of events, stopping at the
first fatal error. -/
def scanList (b : BuildConfig) : List Event → PState → Except ParseErr PState
  | [], st => .ok st
  | ev :: evs, st =>
      match parse b ev st with
      | .error e => .error e
      | .ok st2 => scanList b evs st2

/-- A scan starting from the initial static state. -/
def runScan (b : BuildConfig) (evs : List Event) : Except ParseErr PState :=
  scanList b evs (initState b)

/-- A full resolution: the scan followed by the `ARGP_KEY_END` finalize
call that argp issues when the event stream is exhausted. -/
def resolveArgs (b : BuildConfig) (evs : List Event) :
    Except ParseErr PState :=
  match runScan b evs with
  | .error e => .error e
  | .ok st => parse b Event.keyEnd st

/-- The post-finalize debug override in `parseArgs`: when `OPT_DEBUG` is
resolved, force the aout- and exec-relocation bits off and the remap-exec
bit on. -/
def debugOverride (o : Nat) : Nat :=
  if o &&& OPT_DEBUG ≠ 0 then
    o &&& complUL OPT_RELOCAOUT &&& complUL OPT_RELOCEXEC ||| OPT_REMAPEXEC
  else o

/-- The `parseArgs` driver: run argp over the events, then apply the debug
override to the resolved bitmask. -/
def parseArgs (b : BuildConfig) (evs : List Event) :
    Except ParseErr PState :=
  match resolveArgs b evs with
  | .error e => .error e
  | .ok st => .ok { st with opts := debugOverride st.opts }

/-- The event stream of one command-line invocation: the recognized options
in order, then the trailing command and its arguments delivered as
`ARGP_KEY_ARGS` (argp sends `ARGP_KEY_NO_ARGS` instead when there is no
trailing token). -/
def mkInvocation (kvs : List (Nat × String)) (args : List String) :
    List Event :=
  kvs.map (fun p => Event.opt p.1 p.2) ++ [Event.keyArgs args]

/-- The strict lexicographic comparison on character lists performed by
`std::string::operator<` (`std::less<std::string>`, the comparator of
`std::set<std::string>`): compare code points left to right, a proper
head is smaller than any extension. -/
def charListLt : List Char → List Char → Bool
  | _, [] => false
  | [], _ :: _ => true
  | a :: as, b :: bs =>
      if a.toNat < b.toNat then true
      else if b.toNat < a.toNat then false
      else charListLt as bs

/-- The `std::string` comparison on the underlying character sequences. -/
def strLt (x y : String) : Bool := charListLt x.data y.data

/-- Sorted-unique insertion: the effect of `std::set<std::string>::insert`
on the strictly increasing list of the set's members (two strings neither
of which is less than the other are equivalent, and the insertion of an
equivalent element is a no-op). -/
def setInsert (x : String) : List String → List String
  | [] => [x]
  | y :: ys =>
      if strLt x y then x :: y :: ys
      else if strLt y x then y :: setInsert x ys
      else y :: ys

/-- The colon-splitting loop of `parse_python_prefix`: cut the character
list at every `:`.  (Empty pieces are produced here and dropped by the
caller, exactly as the C code skips inserting empty strings.) -/
def splitSegs : List Char → List Char → List (List Char)
  | [], cur => [cur.reverse]
  | c :: cs, cur =>
      if c = ':' then cur.reverse :: splitSegs cs []
      else splitSegs cs (c :: cur)

/-- The C `parse_python_prefix`: a null pointer is ignored; otherwise every
non-empty colon-separated piece is inserted into the prefix set. -/
def parse_python_prefixes (pfx : Option String) (acc : List String) :
    List String :=
  match pfx with
  | none => acc
  | some p =>
      (splitSegs p.toList []).foldl
        (fun a seg => if seg.isEmpty then a else setInsert (String.mk seg) a)
        acc

/-- The joining loop of `getPythonPrefixes`: members in set order separated
by `:`.  On an empty set the C loop dereferences the past-the-end iterator
(undefined behavior), embedded as `none`. -/
def joinColonSet : List String → Option String
  | [] => none
  | x :: xs => some (xs.foldl (fun r s => r ++ ":" ++ s) x)

/-- The C `getPythonPrefixes`: merge the compiled default prefix list with
the user-supplied one (if any) into the set, then join. -/
def getPythonPrefixes (b : BuildConfig) (user : Option String) :
    Option String :=
  let s1 := parse_python_prefixes (some b.python_inst_prefix_list) []
  let s2 := parse_python_prefixes user s1
  joinColonSet s2

/-- A representative build used for concrete witnesses: munge security
compiled in (so it is both the registry's first candidate and the
`DEFAULT_SEC` choice), usage logging compiled in. -/
def bStd : BuildConfig :=
  ⟨true, false, false, false, true, "/usr/lib/python2.7", 21940,
    "/tmp/spindle"⟩

/-- A build whose only compiled security model is the launchmon key
exchange (`SECLMON` defined, `MUNGE` not). -/
def bLmon : BuildConfig :=
  ⟨false, true, false, false, true, "/usr/lib/python2.7", 21940,
    "/tmp/spindle"⟩

/-- A build with both the munge and the keyfile security models compiled
in. -/
def bMungeKeyfile : BuildConfig :=
  ⟨true, false, true, false, true, "/usr/lib/python2.7", 21940,
    "/tmp/spindle"⟩

/-- The build of the python-prefix example: compiled default prefix list
`"/a:/b"`. -/
def bAB : BuildConfig :=
  ⟨true, false, false, false, true, "/a:/b", 21940, "/tmp/spindle"⟩

/-- A build whose compiled default prefix list is empty: with no user
list, the merged prefix set is empty and the joining loop of
`getPythonPrefixes` dereferences the past-the-end iterator. -/
def bEmptyPfx : BuildConfig :=
  ⟨true, false, false, false, true, "", 21940, "/tmp/spindle"⟩

/-- The state resolved by `resolveArgs bStd [Event.keyArgs ["mpirun"]]`
(the flagless invocation under `bStd`). -/
def stdResolved : PState :=
  ⟨0, 0, none, ["mpirun"], 1, true, true, true, 0, none, true, 21940,
    "/tmp/spindle", 4010⟩

/-- The scan state of `reloc-aout=yes reloc-aout=no mpirun` under `bStd`:
bit `OPT_RELOCAOUT` is in both the enabled and the disabled set. -/
def conflictScanned : PState :=
  ⟨128, 128, none, ["mpirun"], 1, true, true, true, -1, none, true, 21940,
    "/tmp/spindle", 0⟩

/-- The scan state of `reloc-aout=no debug=yes mpirun` under `bStd`. -/
def mixedScanned : PState :=
  ⟨4, 128, none, ["mpirun"], 1, true, true, true, -1, none, true, 21940,
    "/tmp/spindle", 0⟩

/-- The configuration resolved from `mixedScanned`. -/
def mixedResolved : PState :=
  ⟨4, 128, none, ["mpirun"], 1, true, true, true, 0, none, true, 21940,
    "/tmp/spindle", 3886⟩

/-- The scan state of `push pull mpirun` under `bStd`. -/
def ppScanned : PState :=
  ⟨96, 0, none, ["mpirun"], 1, true, true, true, -1, none, true, 21940,
    "/tmp/spindle", 0⟩

/-- The scan state of the flagless invocation `mpirun` under `bStd`. -/
def flaglessScanned : PState :=
  ⟨0, 0, none, ["mpirun"], 1, true, true, true, -1, none, true, 21940,
    "/tmp/spindle", 0⟩

/-- The scan state of `security-munge security-keyfile mpirun` under
`bMungeKeyfile`: the scan accepted both selections and kept the last. -/
def secTwiceScanned : PState :=
  ⟨0, 0, none, ["mpirun"], 1, true, true, true, 2, none, true, 21940,
    "/tmp/spindle", 0⟩

/-- The configuration resolved from
`debug=yes reloc-aout=yes reloc-exec=yes mpirun` under `bStd`, before the
debug override. -/
def debugResolved : PState :=
  ⟨644, 0, none, ["mpirun"], 1, true, true, true, 0, none, true, 21940,
    "/tmp/spindle", 4014⟩

/-- The configuration resolved from `preload=list.txt mpirun` under
`bStd`. -/
def preloadResolved : PState :=
  ⟨16, 0, some "list.txt", ["mpirun"], 1, true, true, true, 0, none, true,
    21940, "/tmp/spindle", 4026⟩

/-- The scan state of an invocation that supplies no options at all: only
the trailing command has been captured. -/
def argsOnly (b : BuildConfig) (args : List String) : PState :=
  { initState b with
      mpi_argv := args
      mpi_argc := args.length
      done := true }

/-- The resolved network bits: the explicit choice, or the compiled
default when none was enabled. -/
def netChoice (st : PState) : Nat :=
  if st.enabled_opts &&& all_network_opts ≠ 0 then
    st.enabled_opts &&& all_network_opts
  else default_network_opts

/-- The resolved push/pull bits: the explicit choice, or the compiled
default when none was enabled. -/
def ppChoice (st : PState) : Nat :=
  if st.enabled_opts &&& all_pushpull_opts ≠ 0 then
    st.enabled_opts &&& all_pushpull_opts
  else default_pushpull_opts

/-- The resolved relocation-group bits. -/
def relocResolved (st : PState) : Nat :=
  all_reloc_opts &&& complUL st.disabled_opts &&&
    (st.enabled_opts ||| default_reloc_opts)

/-- The resolved miscellaneous-group bits. -/
def miscResolved (st : PState) : Nat :=
  all_misc_opts &&& complUL st.disabled_opts &&&
    (st.enabled_opts ||| default_misc_opts)

/-- The security model after finalize: the compiled default when none was
chosen during the scan. -/
def finalSec (b : BuildConfig) (st : PState) : Int :=
  if st.sec_model = -1 then (default_sec b : Int) else st.sec_model

/-- The full bitmask assembled by a successful finalize. -/
def finalOpts (b : BuildConfig) (st : PState) : Nat :=
  st.opts ||| netChoice st ||| ppChoice st ||| relocResolved st |||
    secTerm (finalSec b st) ||| miscResolved st

/-- Bits the scan phase can OR directly into `opts` (`no-mpi`, `no-hide`). -/
def scanOptsMask : Nat := OPT_NOMPI ||| OPT_NOHIDE

/-!
### Bit-level toolkit

Small facts about `&&&`, `|||`, `complUL` and `secTerm` used to reason
about the finalize phase.
-/

theorem testBit_true_lt {n k i : Nat} (hn : n < 2 ^ k)
    (h : n.testBit i = true) : i < k := by
  by_contra hik
  have hlt : n < 2 ^ i :=
    lt_of_lt_of_le hn (Nat.pow_le_pow_right (by norm_num) (Nat.le_of_not_lt hik))
  rw [Nat.testBit_lt_two_pow hlt] at h
  exact Bool.false_ne_true h

theorem complUL_testBit (y i : Nat) :
    (complUL y).testBit i = (decide (i < 64) && ! y.testBit i) := by
  rw [complUL, Nat.testBit_xor, Nat.testBit_two_pow_sub_one,
    Nat.testBit_mod_two_pow]
  by_cases h : i < 64 <;> simp [h]

theorem land_lor_distrib_right (x y m : Nat) :
    (x ||| y) &&& m = (x &&& m) ||| (y &&& m) := by
  apply Nat.eq_of_testBit_eq
  intro i
  cases hx : x.testBit i <;> cases hy : y.testBit i <;> simp [hx, hy]

theorem lor_left_comm (a b c : Nat) : a ||| (b ||| c) = b ||| (a ||| c) := by
  apply Nat.eq_of_testBit_eq
  intro i
  simp [Bool.or_left_comm]

theorem lor_self_left (a b : Nat) : a ||| (a ||| b) = a ||| b := by
  apply Nat.eq_of_testBit_eq
  intro i
  simp

theorem secTerm_land_eq_zero {m : Nat} (hm : m < 2 ^ 16) (x : Int) :
    secTerm x &&& m = 0 := by
  apply Nat.eq_of_testBit_eq
  intro i
  simp only [Nat.testBit_and, Nat.zero_testBit, secTerm,
    Nat.testBit_mod_two_pow, Nat.testBit_shiftLeft]
  by_cases h : m.testBit i = true
  · have hi : i < 16 := testBit_true_lt hm h
    have h16 : ¬ (16 ≤ i) := by omega
    simp [h16]
  · simp only [Bool.not_eq_true] at h
    simp [h]

theorem land_land_disjoint {m1 m2 : Nat} (h : m1 &&& m2 = 0) (x y : Nat) :
    (m1 &&& x &&& y) &&& m2 = 0 := by
  apply Nat.eq_of_testBit_eq
  intro i
  have hb : (m1.testBit i && m2.testBit i) = false := by
    rw [← Nat.testBit_and, h, Nat.zero_testBit]
  simp only [Nat.testBit_and, Nat.zero_testBit]
  cases h1 : m1.testBit i <;> cases h2 : m2.testBit i <;>
    simp_all

theorem land_mask_absorb (m x y : Nat) :
    (m &&& x &&& y) &&& m = m &&& x &&& y := by
  apply Nat.eq_of_testBit_eq
  intro i
  cases h1 : m.testBit i <;> simp [h1]

theorem land_submask_zero {m g : Nat} (hmg : m &&& g = 0) {x : Nat}
    (hx : x &&& m = x) : x &&& g = 0 := by
  rw [← hx, Nat.and_assoc, hmg, Nat.and_zero]

/-!
### Finalize-phase characterization

Named pieces of the bitmask assembled by the `ARGP_KEY_END` branch, and an
elimination lemma describing a successful finalize.
-/

theorem finalizeEnd_ok_elim {b : BuildConfig} {st st' : PState}
    (h : finalizeEnd b st = .ok st') :
    st.enabled_opts &&& st.disabled_opts = 0 ∧
    multi_bits_set (st.enabled_opts &&& all_network_opts) = false ∧
    multi_bits_set (st.enabled_opts &&& all_pushpull_opts) = false ∧
    st' = { st with opts := finalOpts b st, sec_model := finalSec b st } := by
  unfold finalizeEnd at h
  simp only [] at h
  by_cases h1 : st.enabled_opts &&& st.disabled_opts ≠ 0
  · rw [if_pos h1] at h
    exact absurd h (by simp)
  · rw [if_neg h1] at h
    by_cases h2 : multi_bits_set (st.enabled_opts &&& all_network_opts) = true
    · rw [if_pos h2] at h
      exact absurd h (by simp)
    · rw [if_neg h2] at h
      by_cases h3 :
          multi_bits_set (st.enabled_opts &&& all_pushpull_opts) = true
      · rw [if_pos h3] at h
        exact absurd h (by simp)
      · rw [if_neg h3] at h
        simp only [Except.ok.injEq] at h
        refine ⟨by omega, ?_, ?_, h.symm⟩
        · simp only [Bool.not_eq_true] at h2
          exact h2
        · simp only [Bool.not_eq_true] at h3
          exact h3

theorem finalizeEnd_eq_ok {b : BuildConfig} {st : PState}
    (hc : st.enabled_opts &&& st.disabled_opts = 0)
    (hn : multi_bits_set (st.enabled_opts &&& all_network_opts) = false)
    (hp : multi_bits_set (st.enabled_opts &&& all_pushpull_opts) = false) :
    finalizeEnd b st =
      .ok { st with opts := finalOpts b st, sec_model := finalSec b st } := by
  unfold finalizeEnd
  simp only []
  rw [if_neg (by simp [hc] : ¬ st.enabled_opts &&& st.disabled_opts ≠ 0),
    if_neg (by simp [hn] :
      ¬ multi_bits_set (st.enabled_opts &&& all_network_opts) = true),
    if_neg (by simp [hp] :
      ¬ multi_bits_set (st.enabled_opts &&& all_pushpull_opts) = true)]
  rfl

theorem parse_keyEnd (b : BuildConfig) (st : PState) :
    parse b Event.keyEnd st = finalizeEnd b st := by
  simp [parse]

theorem finalSec_ne_neg_one (b : BuildConfig) (st : PState) :
    finalSec b st ≠ -1 := by
  unfold finalSec
  split_ifs with h
  · have h0 : (0 : Int) ≤ (default_sec b : Int) := Int.natCast_nonneg _
    omega
  · exact h

/- Finalize writes only `opts` and `sec_model`, so the resolved pieces that
depend on `enabled_opts` / `disabled_opts` are unchanged by it. -/

theorem netChoice_update (st : PState) (o : Nat) (s : Int) :
    netChoice { st with opts := o, sec_model := s } = netChoice st := rfl

theorem ppChoice_update (st : PState) (o : Nat) (s : Int) :
    ppChoice { st with opts := o, sec_model := s } = ppChoice st := rfl

theorem relocResolved_update (st : PState) (o : Nat) (s : Int) :
    relocResolved { st with opts := o, sec_model := s } =
      relocResolved st := rfl

theorem miscResolved_update (st : PState) (o : Nat) (s : Int) :
    miscResolved { st with opts := o, sec_model := s } =
      miscResolved st := rfl

theorem finalSec_update (b : BuildConfig) (st : PState) (o : Nat) (s : Int) :
    finalSec b { st with opts := o, sec_model := s } =
      if s = -1 then (default_sec b : Int) else s := rfl

theorem lor_big_absorb (x n p r s m : Nat) :
    (x ||| n ||| p ||| r ||| s ||| m) ||| n ||| p ||| r ||| s ||| m
      = x ||| n ||| p ||| r ||| s ||| m := by
  apply Nat.eq_of_testBit_eq
  intro i
  simp only [Nat.testBit_or]
  cases x.testBit i <;> cases n.testBit i <;> cases p.testBit i <;>
    cases r.testBit i <;> cases s.testBit i <;> cases m.testBit i <;> rfl

/-- Running the `ARGP_KEY_END` branch a second time on an already finalized
state reproduces that state: every `opts |=` re-ORs bits that are already
present, and `sec_model` is no longer `-1`. -/
theorem finalize_idem {b : BuildConfig} {st st' : PState}
    (h : finalizeEnd b st = .ok st') : finalizeEnd b st' = .ok st' := by
  obtain ⟨hc, hn, hp, hst⟩ := finalizeEnd_ok_elim h
  subst hst
  have hsec :
      finalSec b { st with opts := finalOpts b st, sec_model := finalSec b st }
        = finalSec b st := by
    rw [finalSec_update, if_neg (finalSec_ne_neg_one b st)]
  have hopts :
      finalOpts b { st with opts := finalOpts b st, sec_model := finalSec b st }
        = finalOpts b st := by
    have hexp :
        finalOpts b
            { st with opts := finalOpts b st, sec_model := finalSec b st } =
          finalOpts b st ||| netChoice st ||| ppChoice st |||
            relocResolved st |||
            secTerm (finalSec b
              { st with opts := finalOpts b st, sec_model := finalSec b st }) |||
            miscResolved st := rfl
    rw [hexp, hsec]
    show (st.opts ||| netChoice st ||| ppChoice st ||| relocResolved st |||
        secTerm (finalSec b st) ||| miscResolved st) ||| netChoice st |||
        ppChoice st ||| relocResolved st ||| secTerm (finalSec b st) |||
        miscResolved st =
      st.opts ||| netChoice st ||| ppChoice st ||| relocResolved st |||
        secTerm (finalSec b st) ||| miscResolved st
    exact lor_big_absorb _ _ _ _ _ _
  rw [@finalizeEnd_eq_ok b
      { st with opts := finalOpts b st, sec_model := finalSec b st }
      hc hn hp, hopts, hsec]

/-!
### Scan-phase infrastructure

Facts about single scan steps and invariants of option-only scans.
-/

theorem lookupEntry_key (b : BuildConfig) (k : Nat) :
    (lookupEntry b k).key = k ∨ (lookupEntry b k).key = 0 := by
  unfold lookupEntry
  cases hf : (options b).find? (fun e => e.key == k) with
  | none => exact Or.inr rfl
  | some e =>
    left
    have hp := List.find?_some hf
    simp only [beq_iff_eq] at hp
    simpa using hp

theorem parse_opt_ok_core {b : BuildConfig} {k : Nat} {a : String}
    {st st' : PState} (hd : st.done = false)
    (h : parse b (Event.opt k a) st = .ok st') :
    st'.done = false ∧ st'.mpi_argv = st.mpi_argv ∧
      (st'.opts = st.opts ∨ st'.opts = st.opts ||| OPT_NOMPI ∨
        st'.opts = st.opts ||| OPT_NOHIDE) := by
  unfold parse at h
  rw [if_neg (by simp [hd])] at h
  simp only [] at h
  split_ifs at h <;>
    (simp only [Except.ok.injEq] at h; subst h; simp [hd])

theorem parse_keyArgs {b : BuildConfig} {st : PState} (hd : st.done = false)
    (args : List String) :
    parse b (Event.keyArgs args) st =
      .ok { st with mpi_argv := args, mpi_argc := args.length,
                    done := true } := by
  unfold parse
  rw [if_neg (by simp [hd])]

theorem scanList_append (b : BuildConfig) (l1 l2 : List Event) (st : PState) :
    scanList b (l1 ++ l2) st =
      match scanList b l1 st with
      | .error e => .error e
      | .ok st2 => scanList b l2 st2 := by
  induction l1 generalizing st with
  | nil => simp [scanList]
  | cons ev evs ih =>
    simp only [List.cons_append, scanList]
    cases parse b ev st with
    | error e => rfl
    | ok st2 => exact ih st2

theorem scanList_opts_inv {b : BuildConfig} {kvs : List (Nat × String)}
    {st st' : PState} (hd : st.done = false)
    (hsub : st.opts &&& scanOptsMask = st.opts)
    (h : scanList b (kvs.map fun p => Event.opt p.1 p.2) st = .ok st') :
    st'.done = false ∧ st'.opts &&& scanOptsMask = st'.opts := by
  induction kvs generalizing st with
  | nil =>
    simp only [List.map_nil, scanList, Except.ok.injEq] at h
    subst h
    exact ⟨hd, hsub⟩
  | cons kv kvs ih =>
    simp only [List.map_cons, scanList] at h
    cases hp : parse b (Event.opt kv.1 kv.2) st with
    | error e => rw [hp] at h; exact absurd h (by simp)
    | ok st2 =>
      rw [hp] at h
      obtain ⟨hd2, _, hopts2⟩ := parse_opt_ok_core hd hp
      have hsub2 : st2.opts &&& scanOptsMask = st2.opts := by
        rcases hopts2 with h2 | h2 | h2
        · rw [h2]; exact hsub
        · rw [h2, land_lor_distrib_right, hsub,
            show OPT_NOMPI &&& scanOptsMask = OPT_NOMPI from by decide]
        · rw [h2, land_lor_distrib_right, hsub,
            show OPT_NOHIDE &&& scanOptsMask = OPT_NOHIDE from by decide]
      exact ih hd2 hsub2 h

theorem runScan_mkInvocation_inv {b : BuildConfig}
    {kvs : List (Nat × String)} {args : List String} {st : PState}
    (h : runScan b (mkInvocation kvs args) = .ok st) :
    st.opts &&& scanOptsMask = st.opts ∧ st.done = true ∧
      st.mpi_argv = args := by
  unfold runScan mkInvocation at h
  rw [scanList_append] at h
  cases hs : scanList b (kvs.map fun p => Event.opt p.1 p.2) (initState b) with
  | error e => rw [hs] at h; exact absurd h (by simp)
  | ok st1 =>
    rw [hs] at h
    have h2 : scanList b [Event.keyArgs args] st1 = .ok st := h
    obtain ⟨hd1, hsub1⟩ :=
      @scanList_opts_inv b _ (initState b) _ rfl (by simp [initState]) hs
    cases hp : parse b (Event.keyArgs args) st1 with
    | error e => rw [scanList, hp] at h2; exact absurd h2 (by simp)
    | ok st2 =>
      rw [scanList, hp] at h2
      simp only [scanList, Except.ok.injEq] at h2
      subst h2
      rw [parse_keyArgs hd1] at hp
      simp only [Except.ok.injEq] at hp
      subst hp
      exact ⟨hsub1, rfl, rfl⟩

/-!
### Group-resolution algebra

The bits each default-bundle group receives in the finalize phase, stated
as the spec's set formula, and extraction of one group's bits from the
full resolved bitmask.
-/

theorem relocResolved_formula (st : PState) :
    relocResolved st =
      (default_reloc_opts ||| (st.enabled_opts &&& all_reloc_opts)) &&&
        complUL (st.disabled_opts &&& all_reloc_opts) := by
  apply Nat.eq_of_testBit_eq
  intro i
  simp only [relocResolved, Nat.testBit_and, Nat.testBit_or, complUL_testBit,
    show default_reloc_opts = all_reloc_opts from rfl]
  cases hA : all_reloc_opts.testBit i <;> simp [hA]

theorem miscResolved_formula (st : PState) :
    miscResolved st =
      (default_misc_opts ||| (st.enabled_opts &&& all_misc_opts)) &&&
        complUL (st.disabled_opts &&& all_misc_opts) := by
  apply Nat.eq_of_testBit_eq
  intro i
  by_cases hi : i = 11
  · subst hi
    simp only [miscResolved, Nat.testBit_and, Nat.testBit_or, complUL_testBit,
      (by decide : all_misc_opts.testBit 11 = true),
      (by decide : default_misc_opts.testBit 11 = true)]
    simp
  · have hS : default_misc_opts.testBit i = false := by
      rw [show default_misc_opts = 2 ^ 11 from rfl]
      exact Nat.testBit_two_pow_of_ne (Ne.symm hi)
    simp only [miscResolved, Nat.testBit_and, Nat.testBit_or, complUL_testBit,
      hS]
    cases hM : all_misc_opts.testBit i <;>
      simp [hM, Bool.and_comm, Bool.and_left_comm, Bool.and_assoc]

theorem netChoice_land_zero {g : Nat} (st : PState)
    (h1 : all_network_opts &&& g = 0)
    (h2 : default_network_opts &&& g = 0) :
    netChoice st &&& g = 0 := by
  unfold netChoice
  split_ifs with h
  · rw [Nat.and_assoc, h1, Nat.and_zero]
  · exact h2

theorem ppChoice_land_zero {g : Nat} (st : PState)
    (h1 : all_pushpull_opts &&& g = 0)
    (h2 : default_pushpull_opts &&& g = 0) :
    ppChoice st &&& g = 0 := by
  unfold ppChoice
  split_ifs with h
  · rw [Nat.and_assoc, h1, Nat.and_zero]
  · exact h2

theorem relocResolved_land_self (st : PState) :
    relocResolved st &&& all_reloc_opts = relocResolved st :=
  land_mask_absorb _ _ _

theorem miscResolved_land_self (st : PState) :
    miscResolved st &&& all_misc_opts = miscResolved st :=
  land_mask_absorb _ _ _

theorem relocResolved_land_zero {g : Nat} (st : PState)
    (h : all_reloc_opts &&& g = 0) :
    relocResolved st &&& g = 0 :=
  land_land_disjoint h _ _

theorem miscResolved_land_zero {g : Nat} (st : PState)
    (h : all_misc_opts &&& g = 0) :
    miscResolved st &&& g = 0 :=
  land_land_disjoint h _ _

theorem finalOpts_land_reloc {b : BuildConfig} {st : PState}
    (hsub : st.opts &&& scanOptsMask = st.opts) :
    finalOpts b st &&& all_reloc_opts = relocResolved st := by
  unfold finalOpts
  simp only [land_lor_distrib_right]
  rw [land_submask_zero (by decide) hsub,
    netChoice_land_zero st (by decide) (by decide),
    ppChoice_land_zero st (by decide) (by decide),
    relocResolved_land_self,
    secTerm_land_eq_zero (by decide),
    miscResolved_land_zero st (by decide)]
  simp

theorem finalOpts_land_misc {b : BuildConfig} {st : PState}
    (hsub : st.opts &&& scanOptsMask = st.opts) :
    finalOpts b st &&& all_misc_opts = miscResolved st := by
  unfold finalOpts
  simp only [land_lor_distrib_right]
  rw [land_submask_zero (by decide) hsub,
    netChoice_land_zero st (by decide) (by decide),
    ppChoice_land_zero st (by decide) (by decide),
    relocResolved_land_zero st (by decide),
    secTerm_land_eq_zero (by decide),
    miscResolved_land_self]
  simp

/-!
### Push/pull group facts
-/

theorem lor_land_distrib_left (m x y : Nat) :
    m &&& (x ||| y) = (m &&& x) ||| (m &&& y) := by
  apply Nat.eq_of_testBit_eq
  intro i
  cases hx : x.testBit i <;> cases hy : y.testBit i <;> simp [hx, hy]

theorem testBit_of_land_two_pow {e i : Nat} (h : e &&& 2 ^ i ≠ 0) :
    e.testBit i = true := by
  rw [Nat.and_two_pow] at h
  cases ht : e.testBit i
  · rw [ht] at h
    simp at h
  · rfl

/-- The network group has a single member, so its multi-selection check
can never fire. -/
theorem network_multi_false (e : Nat) :
    multi_bits_set (e &&& all_network_opts) = false := by
  rw [show all_network_opts = 2 ^ 1 from rfl, Nat.and_two_pow]
  cases e.testBit 1 <;> decide

theorem land_pushpull_of_both {e : Nat} (h5 : e.testBit 5 = true)
    (h6 : e.testBit 6 = true) :
    e &&& all_pushpull_opts = all_pushpull_opts := by
  apply Nat.eq_of_testBit_eq
  intro i
  simp only [Nat.testBit_and]
  by_cases hi5 : i = 5
  · subst hi5
    simp [h5]
  · by_cases hi6 : i = 6
    · subst hi6
      simp [h6]
    · have hz : all_pushpull_opts.testBit i = false := by
        rw [show all_pushpull_opts = 2 ^ 5 ||| 2 ^ 6 from rfl,
          Nat.testBit_or, Nat.testBit_two_pow_of_ne (Ne.symm hi5),
          Nat.testBit_two_pow_of_ne (Ne.symm hi6)]
        rfl
      simp [hz]

theorem ppChoice_default_land {st : PState}
    (h : st.enabled_opts &&& all_pushpull_opts = 0) :
    ppChoice st &&& all_pushpull_opts = OPT_PUSH := by
  unfold ppChoice
  rw [if_neg (by simp [h])]
  decide

/-!
### Port preservation
-/

theorem lookupEntry_PORT (b : BuildConfig) :
    lookupEntry b PORT = ⟨"port", PORT, some "number", GROUP_NETWORK⟩ := rfl

theorem parse_opt_port_preserved {b : BuildConfig} {k : Nat} {a : String}
    {st st' : PState} (hk : k ≠ PORT)
    (h : parse b (Event.opt k a) st = .ok st') :
    st'.spindle_port = st.spindle_port := by
  have hkp : (lookupEntry b k).key ≠ PORT := by
    rcases lookupEntry_key b k with hke | hke <;> rw [hke]
    · exact hk
    · decide
  unfold parse at h
  by_cases hd : st.done = true ∧ Event.opt k a ≠ Event.keyEnd
  · rw [if_pos hd] at h
    simp only [Except.ok.injEq] at h
    subst h
    rfl
  · rw [if_neg hd] at h
    simp only [] at h
    split_ifs at h <;>
      first
        | (exfalso; apply hkp; assumption)
        | (simp only [Except.ok.injEq] at h; subst h; rfl)

theorem scanList_port_preserved {b : BuildConfig}
    {kvs : List (Nat × String)} {st st' : PState}
    (hno : ∀ p ∈ kvs, p.1 ≠ PORT)
    (h : scanList b (kvs.map fun p => Event.opt p.1 p.2) st = .ok st') :
    st'.spindle_port = st.spindle_port := by
  induction kvs generalizing st with
  | nil =>
    simp only [List.map_nil, scanList, Except.ok.injEq] at h
    subst h
    rfl
  | cons kv kvs ih =>
    simp only [List.map_cons, scanList] at h
    cases hp : parse b (Event.opt kv.1 kv.2) st with
    | error e => rw [hp] at h; exact absurd h (by simp)
    | ok st2 =>
      rw [hp] at h
      have h1 := parse_opt_port_preserved (hno kv (by simp)) hp
      have h2 := ih (fun p hp2 => hno p (by simp [hp2])) h
      rw [h2, h1]

/-!
### Tracking the preload bit through the scan
-/

theorem land_two_pow_ne_zero_iff (x i : Nat) :
    x &&& 2 ^ i ≠ 0 ↔ x.testBit i = true := by
  rw [Nat.and_two_pow]
  cases h : x.testBit i <;>
    simp [h, Nat.pos_iff_ne_zero, Nat.pow_pos (show 0 < 2 by norm_num)]

theorem lookupEntry_PRELOAD (b : BuildConfig) :
    lookupEntry b PRELOAD =
      ⟨"preload", PRELOAD, some "FILE", GROUP_MISC⟩ := by
  rcases b with ⟨m, sl, kf, ne, ul, pp, pt, lc⟩
  cases m <;> cases sl <;> cases kf <;> cases ne <;> rfl

theorem opt_code_bit4 {k : Nat} (hk : k ≠ PRELOAD) :
    (opt_key_to_code k).testBit 4 = false := by
  unfold opt_key_to_code
  split_ifs <;> first | decide | (exact absurd (by assumption) hk)

theorem parse_opt_bit4 {b : BuildConfig} {k : Nat} {a : String}
    {st st' : PState} (hd : st.done = false)
    (h : parse b (Event.opt k a) st = .ok st') :
    st'.enabled_opts.testBit 4 =
      (st.enabled_opts.testBit 4 || decide (k = PRELOAD)) ∧
    st'.disabled_opts.testBit 4 = st.disabled_opts.testBit 4 ∧
    st'.done = false := by
  by_cases hk : k = PRELOAD
  · subst hk
    unfold parse at h
    rw [if_neg (by simp [hd])] at h
    simp only [lookupEntry_PRELOAD] at h
    norm_num [YESNO, opt_key_to_code, PRELOAD, RELOCAOUT, COBO, DEBUG,
      FOLLOWFORK, RELOCSO, PUSH, PULL, STRIP, RELOCEXEC, RELOCPY, NOCLEAN,
      (show ¬(("FILE" : String) = "yes|no") by decide),
      (show ¬(some ("FILE" : String) = none ∧ ¬OPT_PRELOAD = 0)
        by simp)] at h
    subst h
    refine ⟨?_, rfl, hd⟩
    simp [Nat.testBit_or,
      (show (OPT_PRELOAD).testBit 4 = true from by decide)]
  · have hb4 : (opt_key_to_code k).testBit 4 = false := opt_code_bit4 hk
    unfold parse at h
    rw [if_neg (by simp [hd])] at h
    simp only [] at h
    split_ifs at h <;>
      (simp only [Except.ok.injEq] at h; subst h;
        simp [Nat.testBit_or, hb4, hk, hd])

theorem scanList_bit4 {b : BuildConfig} {kvs : List (Nat × String)}
    {st st' : PState} (hd : st.done = false)
    (h : scanList b (kvs.map fun p => Event.opt p.1 p.2) st = .ok st') :
    (st'.enabled_opts.testBit 4 = true ↔
      (st.enabled_opts.testBit 4 = true ∨ ∃ a, (PRELOAD, a) ∈ kvs)) ∧
    st'.disabled_opts.testBit 4 = st.disabled_opts.testBit 4 ∧
    st'.done = false := by
  induction kvs generalizing st with
  | nil =>
    simp only [List.map_nil, scanList, Except.ok.injEq] at h
    subst h
    simp [hd]
  | cons kv kvs ih =>
    simp only [List.map_cons, scanList] at h
    cases hp : parse b (Event.opt kv.1 kv.2) st with
    | error e => rw [hp] at h; exact absurd h (by simp)
    | ok st2 =>
      rw [hp] at h
      obtain ⟨he2, hdis2, hd2⟩ := parse_opt_bit4 hd hp
      obtain ⟨ihe, ihd, ihdone⟩ := ih hd2 h
      refine ⟨?_, by rw [ihd, hdis2], ihdone⟩
      rw [ihe, he2]
      simp only [Bool.or_eq_true, decide_eq_true_eq, List.mem_cons]
      constructor
      · rintro ((hE | hkP) | ⟨a, ha⟩)
        · exact Or.inl hE
        · exact Or.inr ⟨kv.2, Or.inl (by rw [← hkP])⟩
        · exact Or.inr ⟨a, Or.inr ha⟩
      · rintro (hE | ⟨a, (heq | hmem)⟩)
        · exact Or.inl (Or.inl hE)
        · exact Or.inl (Or.inr (by rw [← heq]))
        · exact Or.inr ⟨a, hmem⟩

/-!
### Word-size bounds and the debug override
-/

theorem netChoice_lt (st : PState) : netChoice st < 2 ^ 64 := by
  unfold netChoice
  split_ifs
  · exact lt_of_le_of_lt Nat.and_le_right (by decide)
  · decide

theorem ppChoice_lt (st : PState) : ppChoice st < 2 ^ 64 := by
  unfold ppChoice
  split_ifs
  · exact lt_of_le_of_lt Nat.and_le_right (by decide)
  · decide

theorem relocResolved_lt (st : PState) : relocResolved st < 2 ^ 64 :=
  lt_of_le_of_lt (le_trans Nat.and_le_left Nat.and_le_left) (by decide)

theorem miscResolved_lt (st : PState) : miscResolved st < 2 ^ 64 :=
  lt_of_le_of_lt (le_trans Nat.and_le_left Nat.and_le_left) (by decide)

theorem secTerm_lt (x : Int) : secTerm x < 2 ^ 64 :=
  Nat.mod_lt _ (by decide)

theorem finalOpts_lt {b : BuildConfig} {st : PState}
    (hsub : st.opts &&& scanOptsMask = st.opts) :
    finalOpts b st < 2 ^ 64 := by
  have h0 : st.opts < 2 ^ 64 := by
    rw [← hsub]
    exact lt_of_le_of_lt Nat.and_le_right (by decide)
  exact Nat.or_lt_two_pow
    (Nat.or_lt_two_pow
      (Nat.or_lt_two_pow
        (Nat.or_lt_two_pow (Nat.or_lt_two_pow h0 (netChoice_lt st))
          (ppChoice_lt st))
        (relocResolved_lt st))
      (secTerm_lt _))
    (miscResolved_lt st)

theorem debugOverride_spec {o : Nat} (ho : o < 2 ^ 64)
    (hdbg : o &&& OPT_DEBUG ≠ 0) :
    (debugOverride o).testBit 7 = false ∧
    (debugOverride o).testBit 9 = false ∧
    (debugOverride o).testBit 14 = true ∧
    ∀ i, i ≠ 7 → i ≠ 9 → i ≠ 14 →
      (debugOverride o).testBit i = o.testBit i := by
  unfold debugOverride
  rw [if_pos hdbg]
  have e128 : ∀ j, Nat.testBit 128 j = decide (7 = j) := fun j => by
    rw [show (128 : Nat) = 2 ^ 7 from rfl, Nat.testBit_two_pow]
  have e512 : ∀ j, Nat.testBit 512 j = decide (9 = j) := fun j => by
    rw [show (512 : Nat) = 2 ^ 9 from rfl, Nat.testBit_two_pow]
  have e16384 : ∀ j, Nat.testBit 16384 j = decide (14 = j) := fun j => by
    rw [show (16384 : Nat) = 2 ^ 14 from rfl, Nat.testBit_two_pow]
  refine ⟨?_, ?_, ?_, ?_⟩
  · simp [Nat.testBit_or, Nat.testBit_and, complUL_testBit, OPT_RELOCAOUT,
      OPT_RELOCEXEC, OPT_REMAPEXEC, e128, e512, e16384]
  · simp [Nat.testBit_or, Nat.testBit_and, complUL_testBit, OPT_RELOCAOUT,
      OPT_RELOCEXEC, OPT_REMAPEXEC, e128, e512, e16384]
  · simp [Nat.testBit_or, Nat.testBit_and, complUL_testBit, OPT_RELOCAOUT,
      OPT_RELOCEXEC, OPT_REMAPEXEC, e128, e512, e16384]
  · intro i h7 h9 h14
    by_cases hi : i < 64
    · simp [Nat.testBit_or, Nat.testBit_and, complUL_testBit, OPT_RELOCAOUT,
        OPT_RELOCEXEC, OPT_REMAPEXEC, e128, e512, e16384, hi,
        (show ¬(7 = i) from fun h => h7 h.symm),
        (show ¬(9 = i) from fun h => h9 h.symm),
        (show ¬(14 = i) from fun h => h14 h.symm)]
    · have h1 : o.testBit i = false :=
        Nat.testBit_lt_two_pow
          (lt_of_lt_of_le ho
            (Nat.pow_le_pow_right (by norm_num) (Nat.le_of_not_lt hi)))
      simp [Nat.testBit_or, Nat.testBit_and, complUL_testBit, OPT_RELOCAOUT,
        OPT_RELOCEXEC, OPT_REMAPEXEC, e128, e512, e16384, hi, h1,
        (show ¬(14 = i) from fun h => h14 h.symm)]

/-!
### Security-option lookup
-/

theorem lookupEntry_SECMUNGE {b : BuildConfig} (hm : b.munge = true) :
    lookupEntry b SECMUNGE =
      ⟨"security-munge", SECMUNGE, none, GROUP_SEC⟩ := by
  rcases b with ⟨m, sl, kf, ne, ul, pp, pt, lc⟩
  have hm2 : m = true := hm
  subst hm2
  cases sl <;> cases kf <;> cases ne <;> rfl

theorem lookupEntry_SECKEYFILE {b : BuildConfig} (hk : b.keyfile = true) :
    lookupEntry b SECKEYFILE =
      ⟨"security-keyfile", SECKEYFILE, none, GROUP_SEC⟩ := by
  rcases b with ⟨m, sl, kf, ne, ul, pp, pt, lc⟩
  have hk2 : kf = true := hk
  subst hk2
  cases m <;> cases sl <;> cases ne <;> rfl

theorem miscResolved_preload_iff {st : PState}
    (hdis : st.disabled_opts.testBit 4 = false) :
    (miscResolved st &&& OPT_PRELOAD ≠ 0 ↔
      st.enabled_opts.testBit 4 = true) := by
  rw [show OPT_PRELOAD = 2 ^ 4 from rfl, land_two_pow_ne_zero_iff]
  simp [miscResolved, Nat.testBit_and, Nat.testBit_or, complUL_testBit,
    hdis, (show all_misc_opts.testBit 4 = true from by decide),
    (show default_misc_opts.testBit 4 = false from by decide)]

/-!
### Claims
-/

theorem lor_swap_last (x s m : Nat) : (x ||| s) ||| m = (x ||| m) ||| s := by
  rw [Nat.or_assoc, Nat.or_comm s m, ← Nat.or_assoc]

/-- C1 (amended): for a flagless invocation with a valid positional
command, the resolved bitset is exactly the union of the compiled default
bits of every group plus the encoded default security model, the port is
the compiled default port, and the security model is the compiled
`DEFAULT_SEC` choice (munge when munge is compiled in, otherwise keyfile
when launchmon or keyfile security is compiled in, otherwise null) — which
is the registry's first compiled candidate except in builds whose first
compiled model is the launchmon key exchange. -/
theorem spec_C1 (b : BuildConfig) (args : List String)
    (hv : validBuild b) (ha : args ≠ []) :
    ∃ st, resolveArgs b [Event.keyArgs args] = .ok st ∧
      st.opts =
        OPT_SET_SEC
          (default_network_opts ||| default_pushpull_opts |||
            default_reloc_opts ||| default_misc_opts)
          ((default_sec b : Nat) : Int) ∧
      st.spindle_port = b.SPINDLE_PORT ∧
      st.sec_model = ((default_sec b : Nat) : Int) := by
  have hfin := @finalizeEnd_eq_ok b (argsOnly b args)
    (by show (0 : Nat) &&& 0 = 0; decide)
    (by show multi_bits_set ((0 : Nat) &&& all_network_opts) = false; decide)
    (by show multi_bits_set ((0 : Nat) &&& all_pushpull_opts) = false; decide)
  have hres : resolveArgs b [Event.keyArgs args] =
      .ok { argsOnly b args with
              opts := finalOpts b (argsOnly b args)
              sec_model := finalSec b (argsOnly b args) } := by
    show parse b Event.keyEnd (argsOnly b args) = _
    rw [parse_keyEnd]
    exact hfin
  refine ⟨_, hres, ?_, ?_, ?_⟩
  · have hnet : netChoice (argsOnly b args) = default_network_opts := by
      show (if (0 : Nat) &&& all_network_opts ≠ 0 then
          (0 : Nat) &&& all_network_opts else default_network_opts) =
        default_network_opts
      decide
    have hpp : ppChoice (argsOnly b args) = default_pushpull_opts := by
      show (if (0 : Nat) &&& all_pushpull_opts ≠ 0 then
          (0 : Nat) &&& all_pushpull_opts else default_pushpull_opts) =
        default_pushpull_opts
      decide
    have hrel : relocResolved (argsOnly b args) =
        all_reloc_opts &&& complUL 0 &&& (0 ||| default_reloc_opts) := rfl
    have hmis : miscResolved (argsOnly b args) =
        all_misc_opts &&& complUL 0 &&& (0 ||| default_misc_opts) := rfl
    show ((((0 ||| netChoice (argsOnly b args)) |||
        ppChoice (argsOnly b args)) |||
        relocResolved (argsOnly b args)) |||
        secTerm ((default_sec b : Nat) : Int)) |||
        miscResolved (argsOnly b args) = _
    rw [hnet, hpp, hrel, hmis, lor_swap_last]
    show _ ||| secTerm ((default_sec b : Nat) : Int) =
      (default_network_opts ||| default_pushpull_opts |||
        default_reloc_opts ||| default_misc_opts) |||
        secTerm ((default_sec b : Nat) : Int)
    congr 1
  · rfl
  · rfl

/-- Witness for C1 (amended) at the munge build. -/
theorem spec_C1_witness :
    ∃ st, resolveArgs bStd [Event.keyArgs ["mpirun"]] = .ok st ∧
      st.opts =
        OPT_SET_SEC
          (default_network_opts ||| default_pushpull_opts |||
            default_reloc_opts ||| default_misc_opts)
          ((default_sec bStd : Nat) : Int) ∧
      st.spindle_port = bStd.SPINDLE_PORT ∧
      st.sec_model = ((default_sec bStd : Nat) : Int) :=
  spec_C1 bStd ["mpirun"] (Or.inl rfl) (by decide)

/-- Counterexample to C1 as stated: in the build whose only compiled
security model is the launchmon key exchange, the flagless invocation
resolves the security model to the keyfile identifier, while the first
compiled candidate of the registry is the launchmon identifier. -/
theorem spec_C1_cex :
    (resolveArgs bLmon [Event.keyArgs ["mpirun"]]).toOption.map
        PState.sec_model = some ((OPT_SEC_KEYFILE : Nat) : Int) ∧
    firstCompiledSec bLmon = OPT_SEC_KEYLMON ∧
    ((OPT_SEC_KEYFILE : Nat) : Int) ≠ ((OPT_SEC_KEYLMON : Nat) : Int) :=
  ⟨by rfl, by rfl, by decide⟩

/-- C5 (amended): selecting a security-model option during the scan sets
the single chosen-security-model scalar and touches nothing else — in
particular not the enabled set; a second selection does not raise an
error: it overwrites the scalar, the last selection winning. -/
theorem spec_C5 (b : BuildConfig) (st : PState) (a a2 : String)
    (hm : b.munge = true) (hk : b.keyfile = true)
    (hd : st.done = false) :
    parse b (Event.opt SECMUNGE a) st =
      .ok { st with sec_model := ((OPT_SEC_MUNGE : Nat) : Int) } ∧
    parse b (Event.opt SECKEYFILE a2) st =
      .ok { st with sec_model := ((OPT_SEC_KEYFILE : Nat) : Int) } ∧
    scanList b [Event.opt SECMUNGE a, Event.opt SECKEYFILE a2] st =
      .ok { st with sec_model := ((OPT_SEC_KEYFILE : Nat) : Int) } := by
  have h1 : ∀ s : PState, s.done = false →
      parse b (Event.opt SECMUNGE a) s =
        .ok { s with sec_model := ((OPT_SEC_MUNGE : Nat) : Int) } := by
    intro s hsd
    unfold parse
    rw [if_neg (by simp [hsd])]
    simp only [lookupEntry_SECMUNGE hm]
    norm_num [YESNO, opt_key_to_code, SECMUNGE, RELOCAOUT, COBO, DEBUG,
      PRELOAD, FOLLOWFORK, RELOCSO, PUSH, PULL, STRIP, RELOCEXEC, RELOCPY,
      NOCLEAN, PORT, LOCATION, DISABLE_LOGGING, NOMPI, HIDE, GROUP_SEC,
      OPT_SEC_MUNGE]
    exact fun hno => absurd hno (by simp)
  have h2 : ∀ s : PState, s.done = false →
      parse b (Event.opt SECKEYFILE a2) s =
        .ok { s with sec_model := ((OPT_SEC_KEYFILE : Nat) : Int) } := by
    intro s hsd
    unfold parse
    rw [if_neg (by simp [hsd])]
    simp only [lookupEntry_SECKEYFILE hk]
    norm_num [YESNO, opt_key_to_code, SECKEYFILE, RELOCAOUT, COBO, DEBUG,
      PRELOAD, FOLLOWFORK, RELOCSO, PUSH, PULL, STRIP, RELOCEXEC, RELOCPY,
      NOCLEAN, PORT, LOCATION, DISABLE_LOGGING, NOMPI, HIDE, GROUP_SEC,
      OPT_SEC_KEYFILE, OPT_SEC_KEYLMON]
    exact fun hno => absurd hno (by simp)
  refine ⟨h1 st hd, h2 st hd, ?_⟩
  rw [scanList, h1 st hd]
  show scanList b [Event.opt SECKEYFILE a2]
      { st with sec_model := ((OPT_SEC_MUNGE : Nat) : Int) } = _
  rw [scanList,
    h2 { st with sec_model := ((OPT_SEC_MUNGE : Nat) : Int) } hd]
  rfl

/-- Witness for C5 (amended): the two selections applied to the initial
state of the munge-plus-keyfile build. -/
theorem spec_C5_witness :
    parse bMungeKeyfile (Event.opt SECMUNGE "") (initState bMungeKeyfile) =
      .ok { initState bMungeKeyfile with
              sec_model := ((OPT_SEC_MUNGE : Nat) : Int) } ∧
    parse bMungeKeyfile (Event.opt SECKEYFILE "")
        (initState bMungeKeyfile) =
      .ok { initState bMungeKeyfile with
              sec_model := ((OPT_SEC_KEYFILE : Nat) : Int) } ∧
    scanList bMungeKeyfile
        [Event.opt SECMUNGE "", Event.opt SECKEYFILE ""]
        (initState bMungeKeyfile) =
      .ok { initState bMungeKeyfile with
              sec_model := ((OPT_SEC_KEYFILE : Nat) : Int) } :=
  spec_C5 bMungeKeyfile (initState bMungeKeyfile) "" "" rfl rfl rfl

/-- Counterexample to C5 as stated: a full scan containing a second
security-model selection completes without any fatal error, ending with
the last selection in the scalar. -/
theorem spec_C5_cex :
    runScan bMungeKeyfile
        (mkInvocation [(SECMUNGE, ""), (SECKEYFILE, "")] ["mpirun"]) =
      .ok secTwiceScanned ∧
    secTwiceScanned.sec_model = ((OPT_SEC_KEYFILE : Nat) : Int) :=
  ⟨by rfl, by rfl⟩

/-- C6: after finalize, `parseArgs` applies the debug override exactly
once: when the resolved bitset contains the debug feature, the override
clears the relocate-main-executable bit, clears the relocate-exec-targets
bit, sets the remap-exec bit, and changes nothing else; without the debug
feature the bitset is returned unchanged. -/
theorem spec_C6 (b : BuildConfig) (kvs : List (Nat × String))
    (args : List String) (st : PState)
    (hres : resolveArgs b (mkInvocation kvs args) = .ok st) :
    parseArgs b (mkInvocation kvs args) =
      .ok { st with opts := debugOverride st.opts } ∧
    (st.opts &&& OPT_DEBUG = 0 → debugOverride st.opts = st.opts) ∧
    (st.opts &&& OPT_DEBUG ≠ 0 →
      (debugOverride st.opts).testBit 7 = false ∧
      (debugOverride st.opts).testBit 9 = false ∧
      (debugOverride st.opts).testBit 14 = true ∧
      ∀ i, i ≠ 7 → i ≠ 9 → i ≠ 14 →
        (debugOverride st.opts).testBit i = st.opts.testBit i) := by
  refine ⟨?_, ?_, ?_⟩
  · unfold parseArgs
    rw [hres]
  · intro h0
    unfold debugOverride
    rw [if_neg (by simp [h0])]
  · intro hdbg
    have ho : st.opts < 2 ^ 64 := by
      unfold resolveArgs at hres
      cases hs : runScan b (mkInvocation kvs args) with
      | error e => rw [hs] at hres; exact absurd hres (by simp)
      | ok st0 =>
        rw [hs] at hres
        have h2 : parse b Event.keyEnd st0 = .ok st := hres
        rw [parse_keyEnd] at h2
        obtain ⟨-, -, -, hst⟩ := finalizeEnd_ok_elim h2
        obtain ⟨hsub, -, -⟩ := runScan_mkInvocation_inv hs
        rw [hst]
        exact finalOpts_lt hsub
    exact debugOverride_spec ho hdbg

/-- Witness for C6 at `debug=yes reloc-aout=yes reloc-exec=yes mpirun`:
the override fires, clears bits 7 and 9, sets bit 14, and leaves the strip
bit (11) alone. -/
theorem spec_C6_witness :
    parseArgs bStd
        (mkInvocation
          [(DEBUG, "yes"), (RELOCAOUT, "yes"), (RELOCEXEC, "yes")]
          ["mpirun"]) =
      .ok { debugResolved with opts := debugOverride debugResolved.opts } ∧
    (debugOverride debugResolved.opts).testBit 7 = false ∧
    (debugOverride debugResolved.opts).testBit 9 = false ∧
    (debugOverride debugResolved.opts).testBit 14 = true ∧
    (debugOverride debugResolved.opts).testBit 11 =
      debugResolved.opts.testBit 11 := by
  have h := spec_C6 bStd
    [(DEBUG, "yes"), (RELOCAOUT, "yes"), (RELOCEXEC, "yes")] ["mpirun"]
    debugResolved (by rfl)
  refine ⟨h.1, ?_, ?_, ?_, ?_⟩
  · exact (h.2.2 (by decide)).1
  · exact (h.2.2 (by decide)).2.1
  · exact (h.2.2 (by decide)).2.2.1
  · exact (h.2.2 (by decide)).2.2.2 11 (by decide) (by decide) (by decide)

/-- C7: when no port option is supplied, the port field keeps the compiled
default; a supplied value whose C `atoi` conversion is zero — any
non-numeric string or an explicit zero — is rejected with the fatal port
error; a positive numeric string such as "12345" sets the port scalar to
that number. -/
theorem spec_C7 (b : BuildConfig) (kvs : List (Nat × String))
    (args : List String) (st : PState) :
    ((∀ p ∈ kvs, p.1 ≠ PORT) →
      runScan b (mkInvocation kvs args) = .ok st →
      st.spindle_port = b.SPINDLE_PORT) ∧
    (∀ (a : String) (s : PState), s.done = false →
      uintOfInt (atoi a) = 0 →
      parse b (Event.opt PORT a) s = .error ParseErr.portZero) ∧
    (∀ s : PState, s.done = false →
      parse b (Event.opt PORT "12345") s =
        .ok { s with spindle_port := 12345 }) := by
  refine ⟨?_, ?_, ?_⟩
  · intro hno h
    unfold runScan mkInvocation at h
    rw [scanList_append] at h
    cases hs : scanList b (kvs.map fun p => Event.opt p.1 p.2)
        (initState b) with
    | error e => rw [hs] at h; exact absurd h (by simp)
    | ok st1 =>
      rw [hs] at h
      have h2 : scanList b [Event.keyArgs args] st1 = .ok st := h
      have hp1 := scanList_port_preserved hno hs
      cases hp : parse b (Event.keyArgs args) st1 with
      | error e => rw [scanList, hp] at h2; exact absurd h2 (by simp)
      | ok st2 =>
        rw [scanList, hp] at h2
        simp only [scanList, Except.ok.injEq] at h2
        subst h2
        unfold parse at hp
        by_cases hd : st1.done = true ∧
            Event.keyArgs args ≠ Event.keyEnd
        · rw [if_pos hd] at hp
          simp only [Except.ok.injEq] at hp
          subst hp
          exact hp1
        · rw [if_neg hd] at hp
          simp only [Except.ok.injEq] at hp
          subst hp
          exact hp1
  · intro a s hsd hz
    unfold parse
    rw [if_neg (by simp [hsd])]
    simp only [lookupEntry_PORT]
    norm_num [YESNO, opt_key_to_code, PORT, RELOCAOUT, COBO, DEBUG,
      PRELOAD, FOLLOWFORK, RELOCSO, PUSH, PULL, STRIP, RELOCEXEC, RELOCPY,
      NOCLEAN, (show ¬(("number" : String) = "yes|no") by decide)]
    exact fun hnz => absurd hz hnz
  · intro s hsd
    unfold parse
    rw [if_neg (by simp [hsd])]
    simp only [lookupEntry_PORT]
    norm_num [YESNO, opt_key_to_code, PORT, RELOCAOUT, COBO, DEBUG,
      PRELOAD, FOLLOWFORK, RELOCSO, PUSH, PULL, STRIP, RELOCEXEC, RELOCPY,
      NOCLEAN, (show ¬(("number" : String) = "yes|no") by decide),
      (show uintOfInt (atoi "12345") = 12345 from by decide)]

/-- Witness for C7: default port kept without the option; `port=0` and
`port=abc` rejected; `port=12345` stored. -/
theorem spec_C7_witness :
    flaglessScanned.spindle_port = bStd.SPINDLE_PORT ∧
    parse bStd (Event.opt PORT "0") (initState bStd) =
      .error ParseErr.portZero ∧
    parse bStd (Event.opt PORT "abc") (initState bStd) =
      .error ParseErr.portZero ∧
    parse bStd (Event.opt PORT "12345") (initState bStd) =
      .ok { initState bStd with spindle_port := 12345 } := by
  have h := spec_C7 bStd [] ["mpirun"] flaglessScanned
  exact ⟨h.1 (by simp) (by rfl), h.2.1 "0" _ rfl (by decide),
    h.2.1 "abc" _ rfl (by decide), h.2.2 _ rfl⟩

/-- C10: the preload option both stores the file path and adds
`OPT_PRELOAD` to the enabled set, so a successfully resolved bitset
contains the preload bit exactly when a preload option was supplied; the
compiled miscellaneous defaults never include it. -/
theorem spec_C10 (b : BuildConfig) (kvs : List (Nat × String))
    (args : List String) (st' : PState)
    (hres : resolveArgs b (mkInvocation kvs args) = .ok st') :
    (st'.opts &&& OPT_PRELOAD ≠ 0 ↔ ∃ a, (PRELOAD, a) ∈ kvs) ∧
    default_misc_opts &&& OPT_PRELOAD = 0 := by
  refine ⟨?_, by decide⟩
  unfold resolveArgs at hres
  cases hs : runScan b (mkInvocation kvs args) with
  | error e => rw [hs] at hres; exact absurd hres (by simp)
  | ok st =>
    rw [hs] at hres
    have hf : parse b Event.keyEnd st = .ok st' := hres
    rw [parse_keyEnd] at hf
    obtain ⟨-, -, -, hst⟩ := finalizeEnd_ok_elim hf
    obtain ⟨hsub, -, -⟩ := runScan_mkInvocation_inv hs
    -- extract the bit-4 facts of the scan state
    unfold runScan mkInvocation at hs
    rw [scanList_append] at hs
    have hbits : (st.enabled_opts.testBit 4 = true ↔
        ∃ a, (PRELOAD, a) ∈ kvs) ∧
        st.disabled_opts.testBit 4 = false := by
      cases hs1 : scanList b (kvs.map fun p => Event.opt p.1 p.2)
          (initState b) with
      | error e => rw [hs1] at hs; exact absurd hs (by simp)
      | ok st1 =>
        rw [hs1] at hs
        obtain ⟨he1, hd1, hdone1⟩ := scanList_bit4 rfl hs1
        have hs2 : scanList b [Event.keyArgs args] st1 = .ok st := hs
        rw [scanList, parse_keyArgs hdone1] at hs2
        simp only [scanList, Except.ok.injEq] at hs2
        subst hs2
        refine ⟨?_, ?_⟩
        · dsimp only
          rw [he1]
          simp [initState]
        · dsimp only
          rw [hd1]
          simp [initState]
    subst hst
    show finalOpts b st &&& OPT_PRELOAD ≠ 0 ↔ _
    unfold finalOpts
    simp only [land_lor_distrib_right]
    rw [land_submask_zero (by decide) hsub,
      netChoice_land_zero st (by decide) (by decide),
      ppChoice_land_zero st (by decide) (by decide),
      relocResolved_land_zero st (by decide),
      secTerm_land_eq_zero (by decide)]
    simp only [Nat.zero_or, Nat.or_zero]
    rw [miscResolved_preload_iff hbits.2]
    exact hbits.1

/-- Witness for C10: `preload=list.txt mpirun` resolves with the preload
bit set, and the compiled miscellaneous defaults exclude it. -/
theorem spec_C10_witness :
    preloadResolved.opts &&& OPT_PRELOAD ≠ 0 ∧
    default_misc_opts &&& OPT_PRELOAD = 0 := by
  have h := spec_C10 bStd [(PRELOAD, "list.txt")] ["mpirun"]
    preloadResolved (by rfl)
  exact ⟨h.1.mpr ⟨"list.txt", by simp⟩, h.2⟩

/-- C9: for every option sequence on which resolution completes
successfully, invoking the finalize step a second time is a no-op — the
repeated `ARGP_KEY_END` call returns exactly the state produced by the
first finalize, so the resolved bitset, port, security model and every
other field are identical before and after the repetition. -/
theorem spec_C9 (b : BuildConfig) (evs : List Event) (st' : PState)
    (h : resolveArgs b evs = .ok st') :
    parse b Event.keyEnd st' = .ok st' := by
  unfold resolveArgs at h
  cases hs : runScan b evs with
  | error e => rw [hs] at h; exact absurd h (by simp)
  | ok st =>
    rw [hs] at h
    have h2 : parse b Event.keyEnd st = .ok st' := h
    rw [parse_keyEnd] at h2 ⊢
    exact finalize_idem h2

/-- Witness for C9: a concrete successful resolution whose finalize is
re-run. -/
theorem spec_C9_witness :
    parse bStd Event.keyEnd stdResolved = .ok stdResolved :=
  spec_C9 bStd [Event.keyArgs ["mpirun"]] stdResolved (by rfl)

/-- C3: whenever some feature bit ends up both in the explicitly-enabled
and in the explicitly-disabled set during the scan, finalize fails with
the fatal conflicting-directive error and no resolved configuration is
returned. -/
theorem spec_C3 (b : BuildConfig) (evs : List Event) (st : PState)
    (hs : runScan b evs = .ok st)
    (hconf : st.enabled_opts &&& st.disabled_opts ≠ 0) :
    resolveArgs b evs = .error ParseErr.conflictingEnableDisable := by
  unfold resolveArgs
  rw [hs]
  show parse b Event.keyEnd st = .error ParseErr.conflictingEnableDisable
  rw [parse_keyEnd]
  unfold finalizeEnd
  rw [if_pos hconf]

/-- Witness for C3: `reloc-aout=yes reloc-aout=no` puts `OPT_RELOCAOUT`
into both sets, and resolution aborts with the conflict error. -/
theorem spec_C3_witness :
    resolveArgs bStd
        (mkInvocation [(RELOCAOUT, "yes"), (RELOCAOUT, "no")] ["mpirun"]) =
      .error ParseErr.conflictingEnableDisable :=
  spec_C3 bStd _ conflictScanned (by rfl) (by decide)

/-- C2: for every explicitly-enabled / explicitly-disabled pair accepted by
finalize, the resolved bits of each default-bundle group equal the group's
compiled defaults unioned with the explicitly enabled bits of the group,
minus the explicitly disabled bits of the group. -/
theorem spec_C2 (b : BuildConfig) (kvs : List (Nat × String))
    (args : List String) (st st' : PState)
    (hs : runScan b (mkInvocation kvs args) = .ok st)
    (hf : parse b Event.keyEnd st = .ok st') :
    st'.opts &&& all_reloc_opts =
      (default_reloc_opts ||| (st.enabled_opts &&& all_reloc_opts)) &&&
        complUL (st.disabled_opts &&& all_reloc_opts) ∧
    st'.opts &&& all_misc_opts =
      (default_misc_opts ||| (st.enabled_opts &&& all_misc_opts)) &&&
        complUL (st.disabled_opts &&& all_misc_opts) := by
  obtain ⟨hsub, -, -⟩ := runScan_mkInvocation_inv hs
  rw [parse_keyEnd] at hf
  obtain ⟨-, -, -, hst⟩ := finalizeEnd_ok_elim hf
  subst hst
  constructor
  · show finalOpts b st &&& all_reloc_opts = _
    rw [finalOpts_land_reloc hsub, relocResolved_formula]
  · show finalOpts b st &&& all_misc_opts = _
    rw [finalOpts_land_misc hsub, miscResolved_formula]

/-- Witness for C2: `reloc-aout=no debug=yes mpirun` exercises a disabled
default bit and an enabled non-default bit in the two groups. -/
theorem spec_C2_witness :
    mixedResolved.opts &&& all_reloc_opts =
      (default_reloc_opts |||
          (mixedScanned.enabled_opts &&& all_reloc_opts)) &&&
        complUL (mixedScanned.disabled_opts &&& all_reloc_opts) ∧
    mixedResolved.opts &&& all_misc_opts =
      (default_misc_opts |||
          (mixedScanned.enabled_opts &&& all_misc_opts)) &&&
        complUL (mixedScanned.disabled_opts &&& all_misc_opts) :=
  spec_C2 bStd [(RELOCAOUT, "no"), (DEBUG, "yes")] ["mpirun"]
    mixedScanned mixedResolved (by rfl) (by rfl)

/-- C4: explicitly enabling both `push` and `pull` makes finalize fail —
with the dedicated multi-selection error whenever the conflicting-directive
check before it passes — and no configuration is returned; enabling
neither resolves the distribution-model group to the compiled default,
push. -/
theorem spec_C4 (b : BuildConfig) (kvs : List (Nat × String))
    (args : List String) (st : PState)
    (hs : runScan b (mkInvocation kvs args) = .ok st) :
    ((st.enabled_opts &&& OPT_PUSH ≠ 0 ∧ st.enabled_opts &&& OPT_PULL ≠ 0) →
      (∀ st', resolveArgs b (mkInvocation kvs args) ≠ .ok st') ∧
      (st.enabled_opts &&& st.disabled_opts = 0 →
        resolveArgs b (mkInvocation kvs args) =
          .error ParseErr.pushAndPull)) ∧
    ((st.enabled_opts &&& OPT_PUSH = 0 ∧ st.enabled_opts &&& OPT_PULL = 0) →
      ∀ st', parse b Event.keyEnd st = .ok st' →
        st'.opts &&& all_pushpull_opts = OPT_PUSH) := by
  obtain ⟨hsub, -, -⟩ := runScan_mkInvocation_inv hs
  constructor
  · rintro ⟨hp, hq⟩
    have h5 : st.enabled_opts.testBit 5 = true :=
      testBit_of_land_two_pow (i := 5) hp
    have h6 : st.enabled_opts.testBit 6 = true :=
      testBit_of_land_two_pow (i := 6) hq
    have hm : multi_bits_set (st.enabled_opts &&& all_pushpull_opts)
        = true := by
      rw [land_pushpull_of_both h5 h6]
      decide
    constructor
    · intro st' hok
      unfold resolveArgs at hok
      rw [hs] at hok
      have h2 : parse b Event.keyEnd st = .ok st' := hok
      rw [parse_keyEnd] at h2
      obtain ⟨-, -, hpmulti, -⟩ := finalizeEnd_ok_elim h2
      rw [hm] at hpmulti
      exact absurd hpmulti (by simp)
    · intro hc
      unfold resolveArgs
      rw [hs]
      show parse b Event.keyEnd st = .error ParseErr.pushAndPull
      rw [parse_keyEnd]
      unfold finalizeEnd
      simp only []
      rw [if_neg (by simp [hc]),
        if_neg (by simp [network_multi_false st.enabled_opts]),
        if_pos hm]
  · rintro ⟨hp0, hq0⟩ st' hok
    rw [parse_keyEnd] at hok
    obtain ⟨-, -, -, hst⟩ := finalizeEnd_ok_elim hok
    subst hst
    show finalOpts b st &&& all_pushpull_opts = OPT_PUSH
    have hpp0 : st.enabled_opts &&& all_pushpull_opts = 0 := by
      rw [show all_pushpull_opts = OPT_PUSH ||| OPT_PULL from rfl,
        lor_land_distrib_left, hp0, hq0]
      rfl
    unfold finalOpts
    simp only [land_lor_distrib_right]
    rw [land_submask_zero (by decide) hsub,
      netChoice_land_zero st (by decide) (by decide),
      ppChoice_default_land hpp0,
      relocResolved_land_zero st (by decide),
      secTerm_land_eq_zero (by decide),
      miscResolved_land_zero st (by decide)]
    simp

/-- Witness for C4: `push pull mpirun` aborts with the multi-selection
error; the flagless invocation resolves the group to push. -/
theorem spec_C4_witness :
    resolveArgs bStd (mkInvocation [(PUSH, ""), (PULL, "")] ["mpirun"]) =
      .error ParseErr.pushAndPull ∧
    stdResolved.opts &&& all_pushpull_opts = OPT_PUSH := by
  constructor
  · exact ((spec_C4 bStd [(PUSH, ""), (PULL, "")] ["mpirun"] ppScanned
      (by rfl)).1 (by decide)).2 (by decide)
  · exact (spec_C4 bStd [] ["mpirun"] flaglessScanned (by rfl)).2
      (by decide) stdResolved (by rfl)

/-- The comparison is irreflexive. -/
theorem charListLt_irrefl : ∀ l : List Char, charListLt l l = false := by
  intro l
  induction l with
  | nil => rfl
  | cons a as ih => simp [charListLt, ih]

/-- The comparison is transitive. -/
theorem charListLt_trans :
    ∀ (a b c : List Char), charListLt a b = true → charListLt b c = true →
      charListLt a c = true := by
  intro a
  induction a with
  | nil =>
      intro b c h1 h2
      cases b with
      | nil => simp [charListLt] at h1
      | cons b0 bs =>
          cases c with
          | nil => simp [charListLt] at h2
          | cons c0 cs => rfl
  | cons a0 as ih =>
      intro b c h1 h2
      cases b with
      | nil => simp [charListLt] at h1
      | cons b0 bs =>
          cases c with
          | nil => simp [charListLt] at h2
          | cons c0 cs =>
              simp only [charListLt] at h1 h2 ⊢
              split_ifs at h1 h2 ⊢ <;>
                first
                  | rfl
                  | omega
                  | exact ih bs cs h1 h2

/-- Two lists neither of which is less than the other are equal. -/
theorem charListLt_conn :
    ∀ (a b : List Char), charListLt a b = false → charListLt b a = false →
      a = b := by
  intro a
  induction a with
  | nil =>
      intro b h1 _
      cases b with
      | nil => rfl
      | cons b0 bs => simp [charListLt] at h1
  | cons a0 as ih =>
      intro b h1 h2
      cases b with
      | nil => simp [charListLt] at h2
      | cons b0 bs =>
          simp only [charListLt] at h1 h2
          by_cases hab : a0.toNat < b0.toNat
          · rw [if_pos hab] at h1
            exact absurd h1 (by simp)
          · by_cases hba : b0.toNat < a0.toNat
            · rw [if_pos hba] at h2
              exact absurd h2 (by simp)
            · rw [if_neg hab, if_neg hba] at h1
              rw [if_neg hba, if_neg hab] at h2
              have hc : a0 = b0 := by
                apply Char.ext
                apply UInt32.ext
                simp only [Char.toNat] at hab hba
                omega
              rw [hc, ih bs h1 h2]

theorem strLt_irrefl (x : String) : strLt x x = false :=
  charListLt_irrefl x.data

theorem strLt_trans {x y z : String} (h1 : strLt x y = true)
    (h2 : strLt y z = true) : strLt x z = true :=
  charListLt_trans x.data y.data z.data h1 h2

/-- Two strings neither of which is less than the other (equivalent
elements of the `std::set` comparator) are equal. -/
theorem strLt_conn {x y : String} (h1 : strLt x y = false)
    (h2 : strLt y x = false) : x = y := by
  have h := charListLt_conn x.data y.data h1 h2
  cases x; cases y; simp_all [String.data]

/-- `strLt` agrees with the lexicographic `List.Lex` order on the
character sequences. -/
theorem charListLt_iff_lex :
    ∀ (a b : List Char), charListLt a b = true ↔ List.Lex (· < ·) a b := by
  intro a
  induction a with
  | nil =>
      intro b
      cases b with
      | nil =>
          constructor
          · intro h; simp [charListLt] at h
          · intro h; exact absurd h (List.Lex.not_nil_right _ _)
      | cons b0 bs =>
          constructor
          · intro _; exact List.Lex.nil
          · intro _; rfl
  | cons a0 as ih =>
      intro b
      cases b with
      | nil =>
          constructor
          · intro h; simp [charListLt] at h
          · intro h; exact absurd h (List.Lex.not_nil_right _ _)
      | cons b0 bs =>
          simp only [charListLt]
          by_cases hab : a0.toNat < b0.toNat
          · rw [if_pos hab]
            constructor
            · intro _; exact List.Lex.rel hab
            · intro _; rfl
          · rw [if_neg hab]
            by_cases hba : b0.toNat < a0.toNat
            · rw [if_pos hba]
              constructor
              · intro h; simp at h
              · intro h
                cases h with
                | cons h2 => omega
                | rel h2 => exact absurd (show a0.toNat < b0.toNat from h2) hab
            · rw [if_neg hba]
              have heq : a0 = b0 := by
                apply Char.ext
                apply UInt32.ext
                simp only [Char.toNat] at hab hba
                omega
              subst heq
              constructor
              · intro h; exact List.Lex.cons ((ih bs).mp h)
              · intro h
                cases h with
                | cons h2 => exact (ih bs).mpr h2
                | rel h2 =>
                    exact absurd (show a0.toNat < a0.toNat from h2) (by omega)

/-- `strLt` is exactly the standard strict lexicographic order on
strings. -/
theorem strLt_iff_lt (x y : String) : strLt x y = true ↔ x < y := by
  rw [String.lt_iff_toList_lt]
  exact charListLt_iff_lex x.data y.data

/-- Membership after a set insertion. -/
theorem mem_setInsert (x y : String) :
    ∀ l : List String, y ∈ setInsert x l ↔ y = x ∨ y ∈ l := by
  intro l
  induction l with
  | nil => simp [setInsert]
  | cons z zs ih =>
      by_cases h1 : strLt x z = true
      · simp [setInsert, h1]
      · by_cases h2 : strLt z x = true
        · simp only [setInsert, if_neg h1, if_pos h2, List.mem_cons, ih]
          tauto
        · have hk1 : strLt x z = false := by
            cases hv : strLt x z with
            | true => exact absurd hv h1
            | false => rfl
          have hk2 : strLt z x = false := by
            cases hv : strLt z x with
            | true => exact absurd hv h2
            | false => rfl
          have hxz : x = z := strLt_conn hk1 hk2
          subst hxz
          simp [setInsert, hk1, List.mem_cons]

/-- Insertion preserves the strictly increasing order of the set's member
list. -/
theorem sorted_setInsert (x : String) :
    ∀ l : List String, List.Sorted (fun a b => strLt a b = true) l →
      List.Sorted (fun a b => strLt a b = true) (setInsert x l) := by
  intro l
  induction l with
  | nil =>
      intro _
      simp [setInsert]
  | cons z zs ih =>
      intro hs
      rw [List.sorted_cons] at hs
      obtain ⟨hz, hzs⟩ := hs
      by_cases h1 : strLt x z = true
      · rw [setInsert, if_pos h1, List.sorted_cons]
        refine ⟨?_, ?_⟩
        · intro w hw
          rcases List.mem_cons.mp hw with hwz | hwzs
          · rw [hwz]; exact h1
          · exact strLt_trans h1 (hz w hwzs)
        · rw [List.sorted_cons]; exact ⟨hz, hzs⟩
      · by_cases h2 : strLt z x = true
        · rw [setInsert, if_neg h1, if_pos h2, List.sorted_cons]
          refine ⟨?_, ih hzs⟩
          intro w hw
          rcases (mem_setInsert x w zs).mp hw with hwx | hwzs
          · rw [hwx]; exact h2
          · exact hz w hwzs
        · rw [setInsert, if_neg h1, if_neg h2, List.sorted_cons]
          exact ⟨hz, hzs⟩

/-- A strictly increasing member list has no duplicates. -/
theorem nodup_of_sorted {l : List String}
    (h : List.Sorted (fun a b => strLt a b = true) l) : l.Nodup := by
  apply List.Pairwise.imp ?_ h
  intro a b hab heq
  rw [heq, strLt_irrefl] at hab
  exact Bool.false_ne_true hab

/-- Membership after folding the conditional insertions of one prefix
string's segments into the set. -/
theorem mem_foldIns (y : String) :
    ∀ (segs : List (List Char)) (acc : List String),
      y ∈ segs.foldl (fun a seg => if seg.isEmpty then a
          else setInsert (String.mk seg) a) acc ↔
        y ∈ acc ∨ ∃ seg, seg ∈ segs ∧ seg.isEmpty = false ∧
          y = String.mk seg := by
  intro segs
  induction segs with
  | nil => intro acc; simp
  | cons s rest ih =>
      intro acc
      rw [List.foldl_cons, ih]
      by_cases hs : s.isEmpty = true
      · rw [if_pos hs]
        constructor
        · rintro (h | ⟨seg, hseg, hne, hy⟩)
          · exact Or.inl h
          · exact Or.inr ⟨seg, List.mem_cons_of_mem _ hseg, hne, hy⟩
        · rintro (h | ⟨seg, hseg, hne, hy⟩)
          · exact Or.inl h
          · rcases List.mem_cons.mp hseg with rfl | hmem
            · rw [hs] at hne; exact absurd hne (by simp)
            · exact Or.inr ⟨seg, hmem, hne, hy⟩
      · rw [if_neg hs]
        have hs2 : s.isEmpty = false := by
          cases hv : s.isEmpty with
          | true => exact absurd hv hs
          | false => rfl
        rw [mem_setInsert]
        constructor
        · rintro ((rfl | h) | ⟨seg, hseg, hne, hy⟩)
          · exact Or.inr ⟨s, List.mem_cons_self s rest, hs2, rfl⟩
          · exact Or.inl h
          · exact Or.inr ⟨seg, List.mem_cons_of_mem _ hseg, hne, hy⟩
        · rintro (h | ⟨seg, hseg, hne, hy⟩)
          · exact Or.inl (Or.inr h)
          · rcases List.mem_cons.mp hseg with rfl | hmem
            · exact Or.inl (Or.inl hy)
            · exact Or.inr ⟨seg, hmem, hne, hy⟩

/-- Folding the conditional insertions preserves sortedness. -/
theorem sorted_foldIns :
    ∀ (segs : List (List Char)) (acc : List String),
      List.Sorted (fun a b => strLt a b = true) acc →
      List.Sorted (fun a b => strLt a b = true)
        (segs.foldl (fun a seg => if seg.isEmpty then a
          else setInsert (String.mk seg) a) acc) := by
  intro segs
  induction segs with
  | nil => intro acc h; exact h
  | cons s rest ih =>
      intro acc h
      rw [List.foldl_cons]
      apply ih
      by_cases hs : s.isEmpty = true
      · rw [if_pos hs]; exact h
      · rw [if_neg hs]; exact sorted_setInsert _ acc h

/-- Membership in the set after `parse_python_prefix`: the old members
plus every nonempty colon-separated segment of the supplied string. -/
theorem mem_ppp (y : String) (pfx : Option String) (acc : List String) :
    y ∈ parse_python_prefixes pfx acc ↔
      y ∈ acc ∨ ∃ u, pfx = some u ∧ ∃ seg, seg ∈ splitSegs u.toList [] ∧
        seg.isEmpty = false ∧ y = String.mk seg := by
  cases pfx with
  | none => simp [parse_python_prefixes]
  | some p =>
      rw [show parse_python_prefixes (some p) acc =
        (splitSegs p.toList []).foldl
          (fun a seg => if seg.isEmpty then a
            else setInsert (String.mk seg) a) acc from rfl]
      rw [mem_foldIns]
      simp

/-- `parse_python_prefix` preserves sortedness of the member list. -/
theorem sorted_ppp (pfx : Option String) (acc : List String)
    (h : List.Sorted (fun a b => strLt a b = true) acc) :
    List.Sorted (fun a b => strLt a b = true)
      (parse_python_prefixes pfx acc) := by
  cases pfx with
  | none => exact h
  | some p => exact sorted_foldIns _ acc h

/-- The auxiliary loop of `String.intercalate` is the joining fold. -/
theorem intercalate_go_eq :
    ∀ (l : List String) (acc : String),
      String.intercalate.go acc ":" l =
        l.foldl (fun r s => r ++ ":" ++ s) acc := by
  intro l
  induction l with
  | nil => intro acc; rfl
  | cons x xs ih => intro acc; rw [List.foldl_cons]; exact ih (acc ++ ":" ++ x)

/-- On a nonempty member list the joining loop produces the
colon-intercalated string. -/
theorem joinColonSet_eq (l : List String) (h : l ≠ []) :
    joinColonSet l = some (String.intercalate ":" l) := by
  cases l with
  | nil => exact absurd rfl h
  | cons x xs =>
      rw [joinColonSet, String.intercalate, intercalate_go_eq]

/-- C8 (amended): for every compiled default prefix list and every
optional user prefix list, the python-prefix resolver produces the
lexicographically sorted duplicate-free list of the nonempty
colon-separated segments of the two inputs, joined with `:` — provided
that list is nonempty (an empty merge makes the joining loop dereference
the past-the-end iterator, embedded as `none`); in particular merging
the default `"/a:/b"` with the user list `"/b:/c"` yields
`"/a:/b:/c"`. -/
theorem spec_C8 :
    (∀ (b : BuildConfig) (user : Option String),
      ∃ l : List String,
        List.Sorted (· < ·) l ∧ l.Nodup ∧
        (∀ y : String, y ∈ l ↔
          ((∃ seg, seg ∈ splitSegs b.python_inst_prefix_list.toList [] ∧
              seg.isEmpty = false ∧ y = String.mk seg) ∨
           (∃ u, user = some u ∧ ∃ seg, seg ∈ splitSegs u.toList [] ∧
              seg.isEmpty = false ∧ y = String.mk seg))) ∧
        getPythonPrefixes b user = joinColonSet l ∧
        (l ≠ [] → getPythonPrefixes b user =
          some (String.intercalate ":" l))) ∧
    getPythonPrefixes bAB (some "/b:/c") = some "/a:/b:/c" := by
  constructor
  · intro b user
    refine ⟨parse_python_prefixes user
      (parse_python_prefixes (some b.python_inst_prefix_list) []),
      ?_, ?_, ?_, rfl, ?_⟩
    · have hsort : List.Sorted (fun a b => strLt a b = true)
          (parse_python_prefixes user
            (parse_python_prefixes (some b.python_inst_prefix_list) [])) :=
        sorted_ppp _ _ (sorted_ppp _ _ List.sorted_nil)
      exact List.Pairwise.imp (fun hab => (strLt_iff_lt _ _).mp hab) hsort
    · exact nodup_of_sorted (sorted_ppp _ _ (sorted_ppp _ _ List.sorted_nil))
    · intro y
      rw [mem_ppp, mem_ppp]
      simp
    · intro h
      exact joinColonSet_eq _ h
  · decide

/-- Counterexample to C8 as stated: on a build whose compiled default
prefix list is empty and with no user list, the merged set is empty and
the resolver returns no joined string at all (the C loop dereferences
`python_prefixes.begin()` which equals `end()`), although the build is a
valid one. -/
theorem spec_C8_cex :
    validBuild bEmptyPfx ∧ getPythonPrefixes bEmptyPfx none = none := by
  constructor
  · exact Or.inl rfl
  · rfl

end Spindle
